import Mathlib

/-!
Shallow embedding of the LegoImage repository's color engine
(`src/utils/colors.py`) and of the quantizing render loop (`src/main.py`),
over exact rational arithmetic. Python floats are idealized as `ℚ`;
Python `AssertionError` / `ValueError` / `KeyError` outcomes are modelled
with `Except ColorError`.
-/

namespace LegoImage

/-- Python's built-in `round`: round half to even (banker's rounding).
For a tie (fractional part exactly 1/2) it picks the even neighbour,
otherwise it rounds to the nearest integer. -/
def pyRound (q : ℚ) : ℤ :=
  if q - ⌊q⌋ = 1/2 then (if ⌊q⌋ % 2 = 0 then ⌊q⌋ else ⌊q⌋ + 1) else round q

/-- One component of `ColorConv.clamp_to_255_res`: `round(x * 255) / 255`,
the quantization of a normalized component to the 1/255 grid. -/
def quant (x : ℚ) : ℚ := (pyRound (x * 255) : ℚ) / 255

/-- `ColorConv.base_255_to_1`: divide each component by 255. -/
def base_255_to_1 (l : List ℚ) : List ℚ := l.map (fun x => x / 255)

/-- `ColorConv.base_1_to_255`: multiply each component by 255 and round
with Python's `round`. -/
def base_1_to_255 (l : List ℚ) : List ℤ := l.map (fun x => pyRound (x * 255))

/-- `ColorConv.clamp_to_255_res`: round each component to the nearest
1/255 step. -/
def clamp_to_255_res (l : List ℚ) : List ℚ := l.map quant

/-- Python's `x % 2` on a float `x` (for the hue computation of
`ColorConv.hsl_to_rgb`): `x - 2 * floor (x / 2)`, always in `[0, 2)`. -/
def pmod2 (x : ℚ) : ℚ := x - 2 * ⌊x / 2⌋

/-- `ColorConv.rgb_to_hsl`, translated branch by branch. The Python code
initializes `h = s = 0`, and when `delta != 0` computes saturation from the
lightness branch and hue from whichever channel is maximal, testing `r`,
then `g`, then `b` (so the final `else` is the `cmax == b` branch). -/
def rgb_to_hsl (r g b : ℚ) : ℚ × ℚ × ℚ :=
  let cmax := max r (max g b)
  let cmin := min r (min g b)
  let delta := cmax - cmin
  let l := (cmax + cmin) / 2
  if delta = 0 then (0, 0, l)
  else
    let s := if l < 1/2 then delta / (cmax + cmin) else delta / (2 - cmax - cmin)
    let h0 :=
      if cmax = r then (g - b) / delta
      else if cmax = g then (b - r) / delta + 2
      else (r - g) / delta + 4
    let h1 := h0 / 6
    let h := if h1 < 0 then h1 + 1 else h1
    (h, s, l)

/-- `ColorConv.hsl_to_rgb`, translated branch by branch: chroma `c`,
intermediate `x` (via Python's float `%`), offset `m`, and the six
60-degree hue sextants of the Python `if/elif` chain. -/
def hsl_to_rgb (h s l : ℚ) : ℚ × ℚ × ℚ :=
  let c := (1 - |2 * l - 1|) * s
  let x := c * (1 - |pmod2 (h * 6) - 1|)
  let m := l - c / 2
  let rgb1 : ℚ × ℚ × ℚ :=
    if 0 ≤ h ∧ h < 1/6 then (c, x, 0)
    else if 1/6 ≤ h ∧ h < 2/6 then (x, c, 0)
    else if 2/6 ≤ h ∧ h < 3/6 then (0, c, x)
    else if 3/6 ≤ h ∧ h < 4/6 then (0, x, c)
    else if 4/6 ≤ h ∧ h < 5/6 then (x, 0, c)
    else (c, 0, x)
  (rgb1.1 + m, rgb1.2.1 + m, rgb1.2.2 + m)

/-- Failure modes of the embedded code: `outOfRange` models the
`AssertionError`s of the `Color` setters, `invalidFormat` the `ValueError`
raised by `hex_to_rgb`, `formatError` the `ValueError` raised when a float
is formatted with the `x` format code, and `keyError` a Python `KeyError`. -/
inductive ColorError where
  | outOfRange
  | invalidFormat
  | formatError
  | keyError
deriving DecidableEq, Repr

/-- The four private fields of `Color`: normalized `r`, `g`, `b` and
alpha `a`. Python stores floats; we store exact rationals. -/
structure Color where
  r : ℚ
  g : ℚ
  b : ℚ
  a : ℚ
deriving DecidableEq, Repr

/-- The state of a freshly constructed `Color()`: opaque black, the
defaults `__r = __g = __b = 0.0`, `__a = 1.0` of `Color.__init__`. -/
def colorDefault : Color := ⟨0, 0, 0, 1⟩

/-- A rational that the `Color` invariant allows: a normalized component
already lying on the 1/255 grid (so `quant` fixes it). -/
def IsQ255 (x : ℚ) : Prop := 0 ≤ x ∧ x ≤ 1 ∧ quant x = x

instance (x : ℚ) : Decidable (IsQ255 x) := by unfold IsQ255; infer_instance

/-- A `Color` whose four components are in `[0,1]` and on the 1/255 grid —
the invariant every color built through the Python setters satisfies. -/
def Color.Valid (c : Color) : Prop := IsQ255 c.r ∧ IsQ255 c.g ∧ IsQ255 c.b ∧ IsQ255 c.a

instance (c : Color) : Decidable c.Valid := by unfold Color.Valid; infer_instance

/-- The `rgb` property getter: `(r, g, b, a)` normalized. -/
def Color.rgb (c : Color) : ℚ × ℚ × ℚ × ℚ := (c.r, c.g, c.b, c.a)

/-- The `rgb255` property getter: `base_1_to_255((r, g, b, a))`. -/
def Color.rgb255 (c : Color) : ℤ × ℤ × ℤ × ℤ :=
  (pyRound (c.r * 255), pyRound (c.g * 255), pyRound (c.b * 255), pyRound (c.a * 255))

/-- The `hsl` property getter: `rgb_to_hsl` of the stored RGB, plus alpha. -/
def Color.hsl (c : Color) : ℚ × ℚ × ℚ × ℚ :=
  ((rgb_to_hsl c.r c.g c.b).1, (rgb_to_hsl c.r c.g c.b).2.1,
   (rgb_to_hsl c.r c.g c.b).2.2, c.a)

/-- The `h` property getter (`self.hsl[0]`). -/
def Color.h (c : Color) : ℚ := (rgb_to_hsl c.r c.g c.b).1

/-- The `s` property getter (`self.hsl[1]`). -/
def Color.s (c : Color) : ℚ := (rgb_to_hsl c.r c.g c.b).2.1

/-- The `l` property getter (`self.hsl[2]`). -/
def Color.l (c : Color) : ℚ := (rgb_to_hsl c.r c.g c.b).2.2

/-- The `rgb` property setter. Asserts that the first three components are
in `[0,1]` (`AssertionError` → `outOfRange` otherwise); with a fourth
component present it also asserts the alpha range and takes the new alpha,
otherwise it keeps the current alpha; finally it stores
`clamp_to_255_res([r, g, b, alpha])` — note the existing alpha is
re-quantized too, exactly as in the source. -/
def Color.setRgb (c : Color) (v1 v2 v3 : ℚ) (a? : Option ℚ) : Except ColorError Color :=
  if 0 ≤ v1 ∧ v1 ≤ 1 ∧ 0 ≤ v2 ∧ v2 ≤ 1 ∧ 0 ≤ v3 ∧ v3 ≤ 1 then
    match a? with
    | some a =>
      if 0 ≤ a ∧ a ≤ 1 then
        .ok ⟨quant v1, quant v2, quant v3, quant a⟩
      else .error .outOfRange
    | none => .ok ⟨quant v1, quant v2, quant v3, quant c.a⟩
  else .error .outOfRange

/-- The `hsl` property setter: asserts the HSL components (and optional
alpha) are in `[0,1]`, then stores `clamp_to_255_res` of
`hsl_to_rgb(h, s, l)` plus the (new or current) alpha, assigning the
private fields directly (no second range check on the converted RGB). -/
def Color.setHsl (c : Color) (v1 v2 v3 : ℚ) (a? : Option ℚ) : Except ColorError Color :=
  if 0 ≤ v1 ∧ v1 ≤ 1 ∧ 0 ≤ v2 ∧ v2 ≤ 1 ∧ 0 ≤ v3 ∧ v3 ≤ 1 then
    match a? with
    | some a =>
      if 0 ≤ a ∧ a ≤ 1 then
        .ok ⟨quant (hsl_to_rgb v1 v2 v3).1, quant (hsl_to_rgb v1 v2 v3).2.1,
             quant (hsl_to_rgb v1 v2 v3).2.2, quant a⟩
      else .error .outOfRange
    | none =>
      .ok ⟨quant (hsl_to_rgb v1 v2 v3).1, quant (hsl_to_rgb v1 v2 v3).2.1,
           quant (hsl_to_rgb v1 v2 v3).2.2, quant c.a⟩
  else .error .outOfRange

/-- The `r` property setter: range assertion, then
`self.__r = round(value * 255) / 255`. Other fields untouched. -/
def Color.setR (c : Color) (v : ℚ) : Except ColorError Color :=
  if 0 ≤ v ∧ v ≤ 1 then .ok { c with r := quant v } else .error .outOfRange

/-- The `g` property setter. -/
def Color.setG (c : Color) (v : ℚ) : Except ColorError Color :=
  if 0 ≤ v ∧ v ≤ 1 then .ok { c with g := quant v } else .error .outOfRange

/-- The `b` property setter. -/
def Color.setB (c : Color) (v : ℚ) : Except ColorError Color :=
  if 0 ≤ v ∧ v ≤ 1 then .ok { c with b := quant v } else .error .outOfRange

/-- The `alpha` property setter: range assertion, then
`self.__a = round(value * 255) / 255`. -/
def Color.setAlpha (c : Color) (v : ℚ) : Except ColorError Color :=
  if 0 ≤ v ∧ v ≤ 1 then .ok { c with a := quant v } else .error .outOfRange

/-- The `h` property setter: asserts the new hue is in `[0,1]`, reads the
current HSL, and assigns `self.rgb = hsl_to_rgb(value, s, l)` — a 3-tuple,
so it goes through the `rgb` setter (with its own range assertion on the
converted values) and leaves alpha alone. -/
def Color.setH (c : Color) (v : ℚ) : Except ColorError Color :=
  if 0 ≤ v ∧ v ≤ 1 then
    c.setRgb (hsl_to_rgb v (rgb_to_hsl c.r c.g c.b).2.1 (rgb_to_hsl c.r c.g c.b).2.2).1
      (hsl_to_rgb v (rgb_to_hsl c.r c.g c.b).2.1 (rgb_to_hsl c.r c.g c.b).2.2).2.1
      (hsl_to_rgb v (rgb_to_hsl c.r c.g c.b).2.1 (rgb_to_hsl c.r c.g c.b).2.2).2.2 none
  else .error .outOfRange

/-- The `s` property setter: `self.rgb = hsl_to_rgb(h, value, l)`. -/
def Color.setS (c : Color) (v : ℚ) : Except ColorError Color :=
  if 0 ≤ v ∧ v ≤ 1 then
    c.setRgb (hsl_to_rgb (rgb_to_hsl c.r c.g c.b).1 v (rgb_to_hsl c.r c.g c.b).2.2).1
      (hsl_to_rgb (rgb_to_hsl c.r c.g c.b).1 v (rgb_to_hsl c.r c.g c.b).2.2).2.1
      (hsl_to_rgb (rgb_to_hsl c.r c.g c.b).1 v (rgb_to_hsl c.r c.g c.b).2.2).2.2 none
  else .error .outOfRange

/-- The `l` property setter: `self.rgb = hsl_to_rgb(h, s, value)`. -/
def Color.setL (c : Color) (v : ℚ) : Except ColorError Color :=
  if 0 ≤ v ∧ v ≤ 1 then
    c.setRgb (hsl_to_rgb (rgb_to_hsl c.r c.g c.b).1 (rgb_to_hsl c.r c.g c.b).2.1 v).1
      (hsl_to_rgb (rgb_to_hsl c.r c.g c.b).1 (rgb_to_hsl c.r c.g c.b).2.1 v).2.1
      (hsl_to_rgb (rgb_to_hsl c.r c.g c.b).1 (rgb_to_hsl c.r c.g c.b).2.1 v).2.2 none
  else .error .outOfRange

/-- `Color.darken`: asserts `0 <= amount <= 1`, reads the current HSL,
sets `new_l = max(0, l - l * amount)` and writes the 4-tuple
`(h, s, new_l, a)` through the `hsl` setter. Returns the updated color. -/
def Color.darken (c : Color) (amount : ℚ) : Except ColorError Color :=
  if 0 ≤ amount ∧ amount ≤ 1 then
    c.setHsl (rgb_to_hsl c.r c.g c.b).1 (rgb_to_hsl c.r c.g c.b).2.1
      (max 0 ((rgb_to_hsl c.r c.g c.b).2.2 - (rgb_to_hsl c.r c.g c.b).2.2 * amount))
      (some c.a)
  else .error .outOfRange

/-- `Color.lighten`: as `darken`, with `new_l = min(1, l + (1 - l) * amount)`. -/
def Color.lighten (c : Color) (amount : ℚ) : Except ColorError Color :=
  if 0 ≤ amount ∧ amount ≤ 1 then
    c.setHsl (rgb_to_hsl c.r c.g c.b).1 (rgb_to_hsl c.r c.g c.b).2.1
      (min 1 ((rgb_to_hsl c.r c.g c.b).2.2 +
        (1 - (rgb_to_hsl c.r c.g c.b).2.2) * amount))
      (some c.a)
  else .error .outOfRange

/-- The radicand of `Color.diff`: the Python method returns
`math.sqrt(((h1-h2)**2)*2 + (s1-s2)**2 + (l1-l2)**2)` over the two derived
HSL triples (alpha discarded). We embed the (rational) argument of the
square root; `Color.diff` itself is `Real.sqrt` of this value, which the
theorems state explicitly. -/
def diffSq (c₁ c₂ : Color) : ℚ :=
  ((c₁.hsl.1 - c₂.hsl.1) ^ 2) * 2 + (c₁.hsl.2.1 - c₂.hsl.2.1) ^ 2 +
    (c₁.hsl.2.2.1 - c₂.hsl.2.2.1) ^ 2

/-- `Color.__init__` with a 3-element tuple and `_as=ColorMode.RGB255`:
`self.rgb = ColorConv.base_255_to_1(initial)` starting from the opaque
black defaults. -/
def Color.ofRgb255 (r g b : ℕ) : Except ColorError Color :=
  colorDefault.setRgb ((r : ℚ) / 255) ((g : ℚ) / 255) ((b : ℚ) / 255) none

/-- `Color.__init__` when `initial` is itself a `Color`: the constructor
body executes `self = initial`, which in Python merely rebinds the local
name `self`; the object under construction keeps its opaque-black default
fields, so the argument is ignored. -/
def Color.ofColor (_initial : Color) : Color := colorDefault

/-- Value of a single hexadecimal digit character, if it is one. -/
def hexChar? (ch : Char) : Option ℕ :=
  if '0' ≤ ch ∧ ch ≤ '9' then some (ch.toNat - '0'.toNat)
  else if 'a' ≤ ch ∧ ch ≤ 'f' then some (ch.toNat - 'a'.toNat + 10)
  else if 'A' ≤ ch ∧ ch ≤ 'F' then some (ch.toNat - 'A'.toNat + 10)
  else none

/-- Python's `int(s, 16)` applied to the two-character channel slices of
`hex_to_rgb`, restricted to plain hexadecimal digit pairs (the only shapes
these claims exercise). -/
def hexPair? (c1 c2 : Char) : Option ℕ := do
  let d1 ← hexChar? c1
  let d2 ← hexChar? c2
  pure (16 * d1 + d2)

/-- Lowercase hexadecimal digit character. -/
def hexDigitChar (d : ℕ) : Char :=
  if d < 10 then Char.ofNat (Char.toNat '0' + d) else Char.ofNat (Char.toNat 'a' + (d - 10))

/-- Python's `f"{n:02x}"` for an integer `0 <= n <= 255`: two lowercase
zero-padded hex digits. -/
def toHex2 (n : ℤ) : List Char := [hexDigitChar (n.toNat / 16 % 16), hexDigitChar (n.toNat % 16)]

/-- `ColorConv.rgb_to_hex`. Without alpha it converts the normalized
channels with `base_1_to_255` and formats `#rrggbb`. With alpha present
the source computes `a = a * 255` — still a Python float — and then
formats it with `f"{a:02x}"`; formatting a float with the `x` format code
raises `ValueError: Unknown format code 'x' for object of type 'float'`,
so the alpha branch is embedded as `.error .formatError`. -/
def rgb_to_hex (r g b : ℚ) (a? : Option ℚ) : Except ColorError (List Char) :=
  match a? with
  | some _ => .error .formatError
  | none =>
    .ok ('#' :: (toHex2 (pyRound (r * 255)) ++ toHex2 (pyRound (g * 255)) ++
      toHex2 (pyRound (b * 255))))

/-- `ColorConv.hex_to_rgb`: strip every leading `#` (Python `lstrip('#')`),
require exactly 6 or 8 remaining characters (`ValueError` → `invalidFormat`
otherwise), parse the channel pairs base-16, default the missing alpha to
the INTEGER `1` (not 255 — this is the source's slip), and divide all four
components by 255 (`base_255_to_1`). -/
def hex_to_rgb (str : List Char) : Except ColorError (ℚ × ℚ × ℚ × ℚ) :=
  let t := str.dropWhile (fun ch => ch = '#')
  match t with
  | [r1, r2, g1, g2, b1, b2] =>
    match hexPair? r1 r2, hexPair? g1 g2, hexPair? b1 b2 with
    | some rv, some gv, some bv =>
      .ok ((rv : ℚ) / 255, (gv : ℚ) / 255, (bv : ℚ) / 255, (1 : ℚ) / 255)
    | _, _, _ => .error .invalidFormat
  | [r1, r2, g1, g2, b1, b2, a1, a2] =>
    match hexPair? r1 r2, hexPair? g1 g2, hexPair? b1 b2, hexPair? a1 a2 with
    | some rv, some gv, some bv, some av =>
      .ok ((rv : ℚ) / 255, (gv : ℚ) / 255, (bv : ℚ) / 255, (av : ℚ) / 255)
    | _, _, _, _ => .error .invalidFormat
  | _ => .error .invalidFormat

/-- The `hex` property getter: `rgb_to_hex(r, g, b)` without alpha. -/
def Color.hexOf (c : Color) : Except ColorError (List Char) := rgb_to_hex c.r c.g c.b none

/-- The `hexa` property getter: `rgb_to_hex(r, g, b, a)` with alpha. -/
def Color.hexaOf (c : Color) : Except ColorError (List Char) := rgb_to_hex c.r c.g c.b (some c.a)

/-- The `hex` property setter: `self.rgb = hex_to_rgb(value)` — the parsed
value is a 4-tuple, so the `rgb` setter also takes its alpha. -/
def Color.setHex (c : Color) (str : List Char) : Except ColorError Color := do
  let v ← hex_to_rgb str
  c.setRgb v.1 v.2.1 v.2.2.1 (some v.2.2.2)

/-- A palette color of `LEGO_COLORS_LIST`: built by
`Color((r, g, b), _as=ColorMode.RGB255)`, i.e. the `rgb` setter on
`base_255_to_1((r, g, b))`, which stores exactly `(r/255, g/255, b/255)`
and keeps the default opaque alpha. -/
def c255 (r g b : ℕ) : Color := ⟨(r : ℚ) / 255, (g : ℚ) / 255, (b : ℚ) / 255, 1⟩

/-- `colors.LEGO_COLORS_LIST`: the 44 reference colors, in declaration
order. -/
def legoColorsList : List Color :=
  [c255 255 255 255, c255 221 222 221, c255 217 187 123, c255 214 114 64,
   c255 255 0 0, c255 0 0 255, c255 255 255 0, c255 0 0 0,
   c255 0 153 0, c255 0 204 0, c255 168 61 21, c255 71 140 198,
   c255 255 102 0, c255 5 157 158, c255 149 185 11, c255 153 0 102,
   c255 94 116 140, c255 141 116 82, c255 0 37 65, c255 0 51 0,
   c255 95 130 101, c255 128 8 27, c255 244 155 0, c255 91 28 12,
   c255 156 146 145, c255 76 81 86, c255 228 228 218, c255 135 192 234,
   c255 222 55 139, c255 238 157 195, c255 255 255 153, c255 44 21 119,
   c255 245 193 137, c255 48 15 6, c255 170 125 85, c255 70 155 195,
   c255 104 195 226, c255 211 242 234, c255 160 110 185, c255 205 164 222,
   c255 245 243 215, c255 226 249 154, c255 119 119 78, c255 150 185 59]

/-- Lookup in a Python dict keyed by `str(color)` (the `r,g,b,a` string,
injective on distinct colors), modelled as an association list. -/
def dictLookup {α : Type} : List (Color × α) → Color → Option α
  | [], _ => none
  | e :: es, k => if e.1 = k then some e.2 else dictLookup es k

/-- Python dict assignment `d[k] = v`: overwrite an existing binding in
place, else append a new one (insertion order preserved). -/
def dictSet {α : Type} (d : List (Color × α)) (k : Color) (v : α) : List (Color × α) :=
  if (dictLookup d k).isSome then d.map (fun e => if e.1 = k then (k, v) else e)
  else d ++ [(k, v)]

/-- Python's `min` over a nonempty list `x :: xs` of floats: the least
value (ties carry the same value, and `min` keeps the first). -/
def pyMin (x : ℚ) (xs : List ℚ) : ℚ := xs.foldl min x

/-- Python's `list.index(v)`: index of the first occurrence of `v`
(total here; all uses look up a member). -/
def idxOfQ (v : ℚ) : List ℚ → ℕ
  | [] => 0
  | x :: xs => if x = v then 0 else idxOfQ v xs + 1

/-- `differences.index(min(differences))`: the first index achieving the
minimum of a nonempty list. -/
def minIndex : List ℚ → ℕ
  | [] => 0
  | x :: xs => idxOfQ (pyMin x xs) (x :: xs)

/-- One iteration of `PixelMap.generateFilter` over a source color:
copy it, force alpha to fully opaque through the `alpha` setter
(`quant 1 = 1`), build the list of `diff` values against every palette
entry in order, pick the first index achieving the minimum (the square
root is strictly monotone, so comparing the radicands `diffSq` picks the
same index as comparing the float `diff` values), record the filter entry,
and seed the usage counter of the chosen palette color with 0 if absent. -/
def generateFilterStep (palette : List Color)
    (acc : List (Color × Color) × List (Color × ℕ)) (oc : Color) :
    List (Color × Color) × List (Color × ℕ) :=
  let nc : Color := { oc with a := quant 1 }
  let ds := palette.map (fun cmp => diffSq nc cmp)
  let closest := palette.getD (minIndex ds) colorDefault
  (dictSet acc.1 oc closest,
   if (dictLookup acc.2 closest).isSome then acc.2 else acc.2 ++ [(closest, 0)])

/-- `PixelMap.generateFilter` generalized over the palette list: fold the
step over `self.image_colors`, starting from the empty
`color_filter` / `color_filter_uses` dicts. -/
def generateFilterWith (palette : List Color) (imageColors : List Color) :
    List (Color × Color) × List (Color × ℕ) :=
  imageColors.foldl (generateFilterStep palette) ([], [])

/-- `PixelMap.generateFilter` as in the source, against
`colors.LEGO_COLORS_LIST`. -/
def generateFilter (imageColors : List Color) :
    List (Color × Color) × List (Color × ℕ) :=
  generateFilterWith legoColorsList imageColors

/-- The options of `PixelMap.Options` that `drawStud` and the render loop
consult. -/
structure RenderOptions where
  keep_removed_transparent_studs : Bool
  transparent_color : Color
  transparent_margin : ℚ
  limit_to_lego_only : Bool
  replace_colors : Bool
  replace_colors_dict : List (Color × Color)
deriving Repr

/-- The options of the program's actual entry-point run
(`PixelMap(path, newx=.., stud_resolution=72, limit_to_lego_only=True)`):
every flag at its default except `limit_to_lego_only`. The transparent
color is `Color(colors.TRANSPARENT)`, which by the `Color.ofColor`
semantics is opaque black, not transparent. -/
def defaultOpts : RenderOptions :=
  { keep_removed_transparent_studs := false
    transparent_color := colorDefault
    transparent_margin := 1/2
    limit_to_lego_only := true
    replace_colors := false
    replace_colors_dict := [] }

/-- `PixelMap.drawStud`, minus the pixel geometry: the copied fill's alpha
is snapped to 1 or 0 against the transparency margin (through the `alpha`
setter), an empty fill may be replaced by the configured transparent color
when `keep_removed_transparent_studs` is set, the stud is created from
that fill (`Stud.empty` is `alpha == 0`, and the painted stud keeps this
color — the later reassignments of the local `fill` do not repaint it),
and for a non-empty stud the replace-colors dict and then the color filter
are consulted by `str(fill)` key; a filter hit rebinds `fill` and
increments `color_filter_uses[str(fill)]` (KeyError if absent).
Returns (stud color, stud emptiness, updated uses). -/
def drawStud (opts : RenderOptions) (filt : List (Color × Color))
    (uses : List (Color × ℕ)) (fill0 : Color) :
    Except ColorError (Color × Bool × List (Color × ℕ)) :=
  let fill1 : Color :=
    if opts.transparent_margin ≤ fill0.a then { fill0 with a := quant 1 }
    else { fill0 with a := quant 0 }
  let fill2 : Color :=
    if fill1.a = 0 ∧ opts.keep_removed_transparent_studs then opts.transparent_color
    else fill1
  let empty : Bool := decide (fill2.a = 0)
  if empty then .ok (fill2, empty, uses)
  else
    let fill3 : Color :=
      if opts.replace_colors then
        match dictLookup opts.replace_colors_dict fill2 with
        | some rep => rep
        | none => fill2
      else fill2
    if opts.limit_to_lego_only then
      match dictLookup filt fill3 with
      | some fill4 =>
        match dictLookup uses fill4 with
        | some n => .ok (fill2, empty, dictSet uses fill4 (n + 1))
        | none => .error .keyError
      | none => .ok (fill2, empty, uses)
    else .ok (fill2, empty, uses)

/-- The per-pixel body of `PixelMap.generateImage`: when
`limit_to_lego_only` is set the fill is first replaced by
`color_filter[str(fill_color)]` (KeyError if absent), then the stud is
drawn. Folded over the pixel colors of the map, accumulating the drawn
(stud color, emptiness) records and the usage counters. -/
def renderUses (opts : RenderOptions) (filt : List (Color × Color))
    (uses0 : List (Color × ℕ)) (pixels : List Color) :
    Except ColorError (List (Color × Bool) × List (Color × ℕ)) :=
  pixels.foldlM
    (fun acc p => do
      let fill ←
        if opts.limit_to_lego_only then
          match dictLookup filt p with
          | some f => Except.ok f
          | none => Except.error ColorError.keyError
        else Except.ok p
      let res ← drawStud opts filt acc.2 fill
      Except.ok (acc.1 ++ [(res.1, res.2.1)], res.2.2))
    ([], uses0)

/-- The palette entry `generateFilter` assigns to a source color: the
entry at the first index achieving the minimal `diff` against the
opaque-alpha copy of the color (identical to the body of
`generateFilterStep`). -/
def closestEntry (palette : List Color) (oc : Color) : Color :=
  palette.getD
    (minIndex (palette.map (fun cmp => diffSq { oc with a := quant 1 } cmp))) colorDefault

/-- The saturation branch of `rgb_to_hsl` as a function of `cmax`/`cmin`
(used only to state characterization lemmas about `rgb_to_hsl`). -/
def sBranch (cmax cmin : ℚ) : ℚ :=
  if (cmax + cmin) / 2 < 1/2 then (cmax - cmin) / (cmax + cmin)
  else (cmax - cmin) / (2 - cmax - cmin)

/-! ### Arithmetic facts about `pyRound`, `quant` and `pmod2` -/

theorem pyRound_intCast (n : ℤ) : pyRound (n : ℚ) = n := by
  unfold pyRound
  rw [Int.floor_intCast, round_intCast]
  norm_num

theorem pyRound_le_of_le {q : ℚ} {n : ℤ} (hq : q ≤ (n : ℚ)) : pyRound q ≤ n := by
  unfold pyRound
  split_ifs with h1 h2
  · calc ⌊q⌋ ≤ ⌊(n : ℚ)⌋ := Int.floor_le_floor hq
    _ = n := Int.floor_intCast n
  · have hq' : (⌊q⌋ : ℚ) + 1/2 ≤ (n : ℚ) := by
      have := Int.floor_le q
      linarith [h1]
    have hlt : (⌊q⌋ : ℚ) < (n : ℚ) := by linarith
    exact_mod_cast Int.add_one_le_iff.mpr (by exact_mod_cast hlt)
  · rw [round_eq]
    calc ⌊q + 1/2⌋ ≤ ⌊(n : ℚ) + 1/2⌋ := Int.floor_le_floor (by linarith)
    _ = n + ⌊(1 : ℚ)/2⌋ := Int.floor_int_add n _
    _ = n := by norm_num

theorem le_pyRound_of_le {q : ℚ} {n : ℤ} (hq : (n : ℚ) ≤ q) : n ≤ pyRound q := by
  unfold pyRound
  split_ifs with h1 h2
  · exact Int.le_floor.mpr hq
  · exact le_trans (Int.le_floor.mpr hq) (by omega)
  · rw [round_eq]
    exact Int.le_floor.mpr (by linarith)

theorem pyRound_nonneg {q : ℚ} (hq : 0 ≤ q) : 0 ≤ pyRound q :=
  le_pyRound_of_le (by exact_mod_cast hq)

theorem quant_div255 (n : ℤ) : quant ((n : ℚ) / 255) = (n : ℚ) / 255 := by
  unfold quant
  rw [div_mul_cancel₀ _ (by norm_num : (255 : ℚ) ≠ 0), pyRound_intCast]

theorem quant_zero : quant 0 = 0 := by
  have := quant_div255 0
  norm_num at this
  simpa using this

theorem quant_one : quant 1 = 1 := by
  have := quant_div255 255
  norm_num at this
  simpa using this

theorem quant_nonneg {x : ℚ} (hx : 0 ≤ x) : 0 ≤ quant x := by
  unfold quant
  have h : (0 : ℤ) ≤ pyRound (x * 255) := pyRound_nonneg (by positivity)
  positivity

theorem quant_le_one {x : ℚ} (hx : x ≤ 1) : quant x ≤ 1 := by
  unfold quant
  have h : pyRound (x * 255) ≤ (255 : ℤ) := pyRound_le_of_le (by norm_num; linarith)
  rw [div_le_one (by norm_num)]
  exact_mod_cast h

theorem IsQ255.nonneg {x : ℚ} (h : IsQ255 x) : 0 ≤ x := h.1

theorem IsQ255.le_one {x : ℚ} (h : IsQ255 x) : x ≤ 1 := h.2.1

theorem IsQ255.quant_eq {x : ℚ} (h : IsQ255 x) : quant x = x := h.2.2

theorem pmod2_nonneg (x : ℚ) : 0 ≤ pmod2 x := by
  unfold pmod2
  have := Int.floor_le (x / 2)
  linarith

theorem pmod2_lt_two (x : ℚ) : pmod2 x < 2 := by
  unfold pmod2
  have := Int.lt_floor_add_one (x / 2)
  linarith

theorem pmod2_eq_of_bounds {x : ℚ} (k : ℤ) (h1 : (k : ℚ) ≤ x / 2) (h2 : x / 2 < k + 1) :
    pmod2 x = x - 2 * k := by
  unfold pmod2
  rw [show ⌊x / 2⌋ = k from Int.floor_eq_iff.mpr ⟨h1, by exact_mod_cast h2⟩]

/-! ### The chroma identity and the six sextant reconstructions -/

theorem chroma_sBranch {cmax cmin : ℚ} (h0 : 0 ≤ cmin) (h1 : cmax ≤ 1) (hlt : cmin < cmax) :
    (1 - |2 * ((cmax + cmin) / 2) - 1|) * sBranch cmax cmin = cmax - cmin := by
  unfold sBranch
  split_ifs with hl
  · have hsum : 0 < cmax + cmin := by linarith
    rw [abs_of_nonpos (by linarith)]
    field_simp
  · have hsum : cmax + cmin < 2 := by linarith
    have hsum1 : (0 : ℚ) < 2 - cmax - cmin := by linarith
    rw [abs_of_nonneg (by push_neg at hl; linarith)]
    field_simp
    ring

theorem recon_S1 {cmax cmin t : ℚ} (h0 : 0 ≤ cmin) (h1 : cmax ≤ 1) (hlt : cmin < cmax)
    (ht0 : 0 ≤ t) (ht1 : t < 1/6) :
    hsl_to_rgb t (sBranch cmax cmin) ((cmax + cmin) / 2) =
      (cmax, cmin + (cmax - cmin) * (6 * t), cmin) := by
  have hc := chroma_sBranch h0 h1 hlt
  have hmod : pmod2 (t * 6) = t * 6 := by
    have := pmod2_eq_of_bounds (x := t * 6) 0 (by push_cast; linarith) (by push_cast; linarith)
    simpa using this
  simp only [hsl_to_rgb, hmod, hc]
  rw [abs_of_nonpos (by linarith), if_pos ⟨ht0, ht1⟩]
  simp only [Prod.mk.injEq]
  refine ⟨by ring, by ring, by ring⟩

theorem recon_S2 {cmax cmin t : ℚ} (h0 : 0 ≤ cmin) (h1 : cmax ≤ 1) (hlt : cmin < cmax)
    (ht0 : 1/6 ≤ t) (ht1 : t < 2/6) :
    hsl_to_rgb t (sBranch cmax cmin) ((cmax + cmin) / 2) =
      (cmin + (cmax - cmin) * (2 - 6 * t), cmax, cmin) := by
  have hc := chroma_sBranch h0 h1 hlt
  have hmod : pmod2 (t * 6) = t * 6 := by
    have := pmod2_eq_of_bounds (x := t * 6) 0 (by push_cast; linarith) (by push_cast; linarith)
    simpa using this
  simp only [hsl_to_rgb, hmod, hc]
  rw [abs_of_nonneg (by linarith), if_neg (by push_neg; intro _; linarith),
    if_pos ⟨ht0, ht1⟩]
  simp only [Prod.mk.injEq]
  refine ⟨by ring, by ring, by ring⟩

theorem recon_S3 {cmax cmin t : ℚ} (h0 : 0 ≤ cmin) (h1 : cmax ≤ 1) (hlt : cmin < cmax)
    (ht0 : 2/6 ≤ t) (ht1 : t < 3/6) :
    hsl_to_rgb t (sBranch cmax cmin) ((cmax + cmin) / 2) =
      (cmin, cmax, cmin + (cmax - cmin) * (6 * t - 2)) := by
  have hc := chroma_sBranch h0 h1 hlt
  have hmod : pmod2 (t * 6) = t * 6 - 2 := by
    have := pmod2_eq_of_bounds (x := t * 6) 1 (by push_cast; linarith) (by push_cast; linarith)
    push_cast at this
    linarith [this]
  simp only [hsl_to_rgb, hmod, hc]
  rw [abs_of_nonpos (by linarith), if_neg (by push_neg; intro _; linarith),
    if_neg (by push_neg; intro _; linarith), if_pos ⟨ht0, ht1⟩]
  simp only [Prod.mk.injEq]
  refine ⟨by ring, by ring, by ring⟩

theorem recon_S4 {cmax cmin t : ℚ} (h0 : 0 ≤ cmin) (h1 : cmax ≤ 1) (hlt : cmin < cmax)
    (ht0 : 3/6 ≤ t) (ht1 : t < 4/6) :
    hsl_to_rgb t (sBranch cmax cmin) ((cmax + cmin) / 2) =
      (cmin, cmin + (cmax - cmin) * (4 - 6 * t), cmax) := by
  have hc := chroma_sBranch h0 h1 hlt
  have hmod : pmod2 (t * 6) = t * 6 - 2 := by
    have := pmod2_eq_of_bounds (x := t * 6) 1 (by push_cast; linarith) (by push_cast; linarith)
    push_cast at this
    linarith [this]
  simp only [hsl_to_rgb, hmod, hc]
  rw [abs_of_nonneg (by linarith), if_neg (by push_neg; intro _; linarith),
    if_neg (by push_neg; intro _; linarith), if_neg (by push_neg; intro _; linarith),
    if_pos ⟨ht0, ht1⟩]
  simp only [Prod.mk.injEq]
  refine ⟨by ring, by ring, by ring⟩

theorem recon_S5 {cmax cmin t : ℚ} (h0 : 0 ≤ cmin) (h1 : cmax ≤ 1) (hlt : cmin < cmax)
    (ht0 : 4/6 ≤ t) (ht1 : t < 5/6) :
    hsl_to_rgb t (sBranch cmax cmin) ((cmax + cmin) / 2) =
      (cmin + (cmax - cmin) * (6 * t - 4), cmin, cmax) := by
  have hc := chroma_sBranch h0 h1 hlt
  have hmod : pmod2 (t * 6) = t * 6 - 4 := by
    have := pmod2_eq_of_bounds (x := t * 6) 2 (by push_cast; linarith) (by push_cast; linarith)
    push_cast at this
    linarith [this]
  simp only [hsl_to_rgb, hmod, hc]
  rw [abs_of_nonpos (by linarith), if_neg (by push_neg; intro _; linarith),
    if_neg (by push_neg; intro _; linarith), if_neg (by push_neg; intro _; linarith),
    if_neg (by push_neg; intro _; linarith), if_pos ⟨ht0, ht1⟩]
  simp only [Prod.mk.injEq]
  refine ⟨by ring, by ring, by ring⟩

theorem recon_S6 {cmax cmin t : ℚ} (h0 : 0 ≤ cmin) (h1 : cmax ≤ 1) (hlt : cmin < cmax)
    (ht0 : 5/6 ≤ t) (ht1 : t < 1) :
    hsl_to_rgb t (sBranch cmax cmin) ((cmax + cmin) / 2) =
      (cmax, cmin, cmin + (cmax - cmin) * (6 - 6 * t)) := by
  have hc := chroma_sBranch h0 h1 hlt
  have hmod : pmod2 (t * 6) = t * 6 - 4 := by
    have := pmod2_eq_of_bounds (x := t * 6) 2 (by push_cast; linarith) (by push_cast; linarith)
    push_cast at this
    linarith [this]
  simp only [hsl_to_rgb, hmod, hc]
  rw [abs_of_nonneg (by linarith), if_neg (by push_neg; intro _; linarith),
    if_neg (by push_neg; intro _; linarith), if_neg (by push_neg; intro _; linarith),
    if_neg (by push_neg; intro _; linarith), if_neg (by push_neg; intro _; linarith)]
  simp only [Prod.mk.injEq]
  refine ⟨by ring, by ring, by ring⟩

/-! ### Characterizations of `rgb_to_hsl` by channel ordering -/

theorem rgb_to_hsl_gray (v : ℚ) : rgb_to_hsl v v v = (0, 0, v) := by
  have hvv : (v + v) / 2 = v := by ring
  simp only [rgb_to_hsl, max_self, min_self, sub_self, hvv, if_true]

theorem rgb_to_hsl_R1 {r g b : ℚ} (hbg : b ≤ g) (hgr : g ≤ r) (hbr : b < r) :
    rgb_to_hsl r g b = ((g - b) / (r - b) / 6, sBranch r b, (r + b) / 2) := by
  have hmax : max r (max g b) = r := by rw [max_eq_left hbg, max_eq_left hgr]
  have hmin : min r (min g b) = b := by rw [min_eq_right hbg, min_eq_right hbr.le]
  have hδ : ¬(r - b = 0) := by intro h; linarith [sub_eq_zero.mp h]
  simp only [rgb_to_hsl, hmax, hmin]
  rw [if_neg hδ]
  simp only [if_true]
  rw [if_neg (not_lt.mpr (div_nonneg (div_nonneg (by linarith) (by linarith)) (by norm_num)))]
  rfl

theorem rgb_to_hsl_R2 {r g b : ℚ} (hgb : g < b) (hbr : b ≤ r) :
    rgb_to_hsl r g b = ((g - b) / (r - g) / 6 + 1, sBranch r g, (r + g) / 2) := by
  have hgr : g < r := lt_of_lt_of_le hgb hbr
  have hmax : max r (max g b) = r := by rw [max_eq_right hgb.le, max_eq_left hbr]
  have hmin : min r (min g b) = g := by rw [min_eq_left hgb.le, min_eq_right hgr.le]
  have hδ : ¬(r - g = 0) := by intro h; linarith [sub_eq_zero.mp h]
  simp only [rgb_to_hsl, hmax, hmin]
  rw [if_neg hδ]
  simp only [if_true]
  rw [if_pos (by
    apply div_neg_of_neg_of_pos
    · exact div_neg_of_neg_of_pos (by linarith) (by linarith)
    · norm_num)]
  rfl

theorem rgb_to_hsl_G1 {r g b : ℚ} (hrb : r ≤ b) (hbg : b ≤ g) (hrg : r < g) :
    rgb_to_hsl r g b = (((b - r) / (g - r) + 2) / 6, sBranch g r, (g + r) / 2) := by
  have hmax : max r (max g b) = g := by rw [max_eq_left hbg, max_eq_right hrg.le]
  have hmin : min r (min g b) = r := by rw [min_eq_right hbg, min_eq_left hrb]
  have hδ : ¬(g - r = 0) := by intro h; linarith [sub_eq_zero.mp h]
  simp only [rgb_to_hsl, hmax, hmin]
  rw [if_neg hδ, if_neg hrg.ne']
  simp only [if_true]
  rw [if_neg (not_lt.mpr (div_nonneg
    (by linarith [div_nonneg (show (0:ℚ) ≤ b - r by linarith) (show (0:ℚ) ≤ g - r by linarith)])
    (by norm_num)))]
  rfl

theorem rgb_to_hsl_G2 {r g b : ℚ} (hbr : b < r) (hrg : r < g) :
    rgb_to_hsl r g b = (((b - r) / (g - b) + 2) / 6, sBranch g b, (g + b) / 2) := by
  have hbg : b < g := lt_trans hbr hrg
  have hmax : max r (max g b) = g := by rw [max_eq_left hbg.le, max_eq_right hrg.le]
  have hmin : min r (min g b) = b := by rw [min_eq_right hbg.le, min_eq_right hbr.le]
  have hδ : ¬(g - b = 0) := by intro h; linarith [sub_eq_zero.mp h]
  have hquot : (-1 : ℚ) ≤ (b - r) / (g - b) := by
    rw [le_div_iff₀ (by linarith : (0:ℚ) < g - b)]
    linarith
  simp only [rgb_to_hsl, hmax, hmin]
  rw [if_neg hδ, if_neg hrg.ne']
  simp only [if_true]
  rw [if_neg (not_lt.mpr (div_nonneg (by linarith) (by norm_num)))]
  rfl

theorem rgb_to_hsl_B1 {r g b : ℚ} (hgr : g ≤ r) (hrb : r < b) :
    rgb_to_hsl r g b = (((r - g) / (b - g) + 4) / 6, sBranch b g, (b + g) / 2) := by
  have hgb : g < b := lt_of_le_of_lt hgr hrb
  have hmax : max r (max g b) = b := by rw [max_eq_right hgb.le, max_eq_right hrb.le]
  have hmin : min r (min g b) = g := by rw [min_eq_left hgb.le, min_eq_right hgr]
  have hδ : ¬(b - g = 0) := by intro h; linarith [sub_eq_zero.mp h]
  simp only [rgb_to_hsl, hmax, hmin]
  rw [if_neg hδ, if_neg hrb.ne', if_neg hgb.ne',
    if_neg (not_lt.mpr (div_nonneg
      (by linarith [div_nonneg (show (0:ℚ) ≤ r - g by linarith) (show (0:ℚ) ≤ b - g by linarith)])
      (by norm_num)))]
  rfl

theorem rgb_to_hsl_B2 {r g b : ℚ} (hrg : r < g) (hgb : g < b) :
    rgb_to_hsl r g b = (((r - g) / (b - r) + 4) / 6, sBranch b r, (b + r) / 2) := by
  have hrb : r < b := lt_trans hrg hgb
  have hmax : max r (max g b) = b := by rw [max_eq_right hgb.le, max_eq_right hrb.le]
  have hmin : min r (min g b) = r := by rw [min_eq_left hgb.le, min_eq_left hrg.le]
  have hδ : ¬(b - r = 0) := by intro h; linarith [sub_eq_zero.mp h]
  have hquot : (-1 : ℚ) ≤ (r - g) / (b - r) := by
    rw [le_div_iff₀ (by linarith : (0:ℚ) < b - r)]
    linarith
  simp only [rgb_to_hsl, hmax, hmin]
  rw [if_neg hδ, if_neg hrb.ne', if_neg hgb.ne',
    if_neg (not_lt.mpr (div_nonneg (by linarith) (by norm_num)))]
  rfl

theorem hsl_to_rgb_szero (l : ℚ) : hsl_to_rgb 0 0 l = (l, l, l) := by
  simp only [hsl_to_rgb, mul_zero, zero_mul]
  norm_num

/-- HSL → RGB exactly inverts RGB → HSL on `[0,1]` components, in exact
rational arithmetic. -/
theorem hsl_rgb_roundTrip {r g b : ℚ} (hr0 : 0 ≤ r) (hr1 : r ≤ 1) (hg0 : 0 ≤ g)
    (hg1 : g ≤ 1) (hb0 : 0 ≤ b) (hb1 : b ≤ 1) :
    hsl_to_rgb (rgb_to_hsl r g b).1 (rgb_to_hsl r g b).2.1 (rgb_to_hsl r g b).2.2 =
      (r, g, b) := by
  by_cases hR : g ≤ r ∧ b ≤ r
  · obtain ⟨hgr, hbr⟩ := hR
    rcases le_or_lt b g with hbg | hgb
    · rcases eq_or_lt_of_le (hbg.trans hgr) with hbr' | hbr'
      · have hgb2 : g ≤ b := by rw [hbr']; exact hgr
        have hgb' : g = b := le_antisymm hgb2 hbg
        rw [hgb', hbr', rgb_to_hsl_gray]
        exact hsl_to_rgb_szero r
      · rw [rgb_to_hsl_R1 hbg hgr hbr']
        show hsl_to_rgb ((g - b) / (r - b) / 6) (sBranch r b) ((r + b) / 2) = (r, g, b)
        have hne : r - b ≠ 0 := sub_ne_zero.mpr (ne_of_gt hbr')
        rcases eq_or_lt_of_le hgr with hgr' | hgr'
        · have ht : (g - b) / (r - b) / 6 = 1/6 := by
            rw [hgr', div_self hne]
        -- t = 1/6 lands in the second sextant
          rw [ht, recon_S2 hb0 hr1 hbr' (le_refl _) (by norm_num)]
          simp only [Prod.mk.injEq]
          exact ⟨by ring, hgr'.symm, by trivial⟩
        · have hq1 : (g - b) / (r - b) < 1 := (div_lt_one (by linarith)).mpr (by linarith)
          have hq0 : 0 ≤ (g - b) / (r - b) := div_nonneg (by linarith) (by linarith)
          rw [recon_S1 hb0 hr1 hbr' (by linarith) (by linarith)]
          simp only [Prod.mk.injEq]
          refine ⟨by trivial, ?_, by trivial⟩
          field_simp
          ring
    · rw [rgb_to_hsl_R2 hgb hbr]
      show hsl_to_rgb ((g - b) / (r - g) / 6 + 1) (sBranch r g) ((r + g) / 2) = (r, g, b)
      have hgr : g < r := lt_of_lt_of_le hgb hbr
      have hδpos : (0:ℚ) < r - g := by linarith
      have hne : r - g ≠ 0 := ne_of_gt hδpos
      have hq0 : (g - b) / (r - g) < 0 := div_neg_of_neg_of_pos (by linarith) hδpos
      have hqm : (-1:ℚ) ≤ (g - b) / (r - g) := by
        rw [le_div_iff₀ hδpos]; linarith
      rw [recon_S6 hg0 hr1 (by linarith) (by linarith) (by linarith)]
      simp only [Prod.mk.injEq]
      refine ⟨by trivial, by trivial, ?_⟩
      field_simp
      ring
  · by_cases hG : r ≤ g ∧ b ≤ g
    · obtain ⟨hrg, hbg⟩ := hG
      have hrg' : r < g := by
        rcases lt_or_eq_of_le hrg with h | h
        · exact h
        · exact absurd ⟨h.ge, h ▸ hbg⟩ hR
      rcases le_or_lt r b with hrb | hbr
      · rw [rgb_to_hsl_G1 hrb hbg hrg']
        show hsl_to_rgb (((b - r) / (g - r) + 2) / 6) (sBranch g r) ((g + r) / 2) = (r, g, b)
        have hδpos : (0:ℚ) < g - r := by linarith
        have hne : g - r ≠ 0 := ne_of_gt hδpos
        rcases eq_or_lt_of_le hbg with hbg' | hbg'
        · have ht : ((b - r) / (g - r) + 2) / 6 = 3/6 := by
            rw [hbg', div_self hne]; norm_num
          rw [ht, recon_S4 hr0 hg1 (by linarith) (le_refl _) (by norm_num)]
          simp only [Prod.mk.injEq]
          exact ⟨by trivial, by ring, hbg'.symm⟩
        · have hq0 : 0 ≤ (b - r) / (g - r) := div_nonneg (by linarith) (by linarith)
          have hq1 : (b - r) / (g - r) < 1 := (div_lt_one hδpos).mpr (by linarith)
          rw [recon_S3 hr0 hg1 (by linarith) (by linarith) (by linarith)]
          simp only [Prod.mk.injEq]
          refine ⟨by trivial, by trivial, ?_⟩
          field_simp
          ring
      · rw [rgb_to_hsl_G2 hbr hrg']
        show hsl_to_rgb (((b - r) / (g - b) + 2) / 6) (sBranch g b) ((g + b) / 2) = (r, g, b)
        have hbg : b < g := lt_trans hbr hrg'
        have hδpos : (0:ℚ) < g - b := by linarith
        have hne : g - b ≠ 0 := ne_of_gt hδpos
        have hqm : (-1:ℚ) < (b - r) / (g - b) := by
          rw [lt_div_iff₀ hδpos]; linarith
        have hq0 : (b - r) / (g - b) < 0 := div_neg_of_neg_of_pos (by linarith) hδpos
        rw [recon_S2 hb0 hg1 (by linarith) (by linarith) (by linarith)]
        simp only [Prod.mk.injEq, and_true]
        field_simp
        ring
    · have hrb_and : r < b ∧ g < b := by
        rcases le_total g r with h | h
        · have hb' : ¬ b ≤ r := fun hc => hR ⟨h, hc⟩
          push_neg at hb'
          exact ⟨hb', lt_of_le_of_lt h hb'⟩
        · have hb' : ¬ b ≤ g := fun hc => hG ⟨h, hc⟩
          push_neg at hb'
          exact ⟨lt_of_le_of_lt h hb', hb'⟩
      obtain ⟨hrb, hgb⟩ := hrb_and
      rcases le_or_lt g r with hgr | hrg
      · rw [rgb_to_hsl_B1 hgr hrb]
        show hsl_to_rgb (((r - g) / (b - g) + 4) / 6) (sBranch b g) ((b + g) / 2) = (r, g, b)
        have hδpos : (0:ℚ) < b - g := by linarith
        have hne : b - g ≠ 0 := ne_of_gt hδpos
        have hq0 : 0 ≤ (r - g) / (b - g) := div_nonneg (by linarith) (by linarith)
        have hq1 : (r - g) / (b - g) < 1 := (div_lt_one hδpos).mpr (by linarith)
        rw [recon_S5 hg0 hb1 (by linarith) (by linarith) (by linarith)]
        simp only [Prod.mk.injEq, and_true]
        field_simp
        ring
      · rw [rgb_to_hsl_B2 hrg hgb]
        show hsl_to_rgb (((r - g) / (b - r) + 4) / 6) (sBranch b r) ((b + r) / 2) = (r, g, b)
        have hδpos : (0:ℚ) < b - r := by linarith
        have hne : b - r ≠ 0 := ne_of_gt hδpos
        have hqm : (-1:ℚ) < (r - g) / (b - r) := by
          rw [lt_div_iff₀ hδpos]; linarith
        have hq0 : (r - g) / (b - r) < 0 := div_neg_of_neg_of_pos (by linarith) hδpos
        rw [recon_S4 hr0 hb1 (by linarith) (by linarith) (by linarith)]
        simp only [Prod.mk.injEq]
        refine ⟨by trivial, ?_, by trivial⟩
        field_simp
        ring

/-! ### Range facts: both conversions stay inside `[0,1]` -/

theorem sBranch_mem {cmax cmin : ℚ} (h0 : 0 ≤ cmin) (h1 : cmax ≤ 1) (hlt : cmin < cmax) :
    0 ≤ sBranch cmax cmin ∧ sBranch cmax cmin ≤ 1 := by
  unfold sBranch
  split_ifs with hl
  · have hsum : 0 < cmax + cmin := by linarith
    exact ⟨div_nonneg (by linarith) hsum.le, by rw [div_le_one hsum]; linarith⟩
  · push_neg at hl
    have hsum : (0:ℚ) < 2 - cmax - cmin := by linarith
    exact ⟨div_nonneg (by linarith) hsum.le, by rw [div_le_one hsum]; linarith⟩

theorem rgb_to_hsl_mem {r g b : ℚ} (hr0 : 0 ≤ r) (hr1 : r ≤ 1) (hg0 : 0 ≤ g)
    (hg1 : g ≤ 1) (hb0 : 0 ≤ b) (hb1 : b ≤ 1) :
    (0 ≤ (rgb_to_hsl r g b).1 ∧ (rgb_to_hsl r g b).1 ≤ 1) ∧
    (0 ≤ (rgb_to_hsl r g b).2.1 ∧ (rgb_to_hsl r g b).2.1 ≤ 1) ∧
    (0 ≤ (rgb_to_hsl r g b).2.2 ∧ (rgb_to_hsl r g b).2.2 ≤ 1) := by
  by_cases hR : g ≤ r ∧ b ≤ r
  · obtain ⟨hgr, hbr⟩ := hR
    rcases le_or_lt b g with hbg | hgb
    · rcases eq_or_lt_of_le (hbg.trans hgr) with hbr' | hbr'
      · have hgb2 : g ≤ b := by rw [hbr']; exact hgr
        have hgb' : g = b := le_antisymm hgb2 hbg
        rw [hgb', hbr', rgb_to_hsl_gray]
        norm_num
        exact ⟨hr0, hr1⟩
      · rw [rgb_to_hsl_R1 hbg hgr hbr']
        have hq1 : (g - b) / (r - b) ≤ 1 := by rw [div_le_one (by linarith)]; linarith
        have hq0 : 0 ≤ (g - b) / (r - b) := div_nonneg (by linarith) (by linarith)
        have hs := sBranch_mem hb0 hr1 hbr'
        exact ⟨⟨by linarith, by linarith⟩, hs, by constructor <;> linarith⟩
    · rw [rgb_to_hsl_R2 hgb hbr]
      have hgr : g < r := lt_of_lt_of_le hgb hbr
      have hδpos : (0:ℚ) < r - g := by linarith
      have hq0 : (g - b) / (r - g) < 0 := div_neg_of_neg_of_pos (by linarith) hδpos
      have hqm : (-1:ℚ) ≤ (g - b) / (r - g) := by rw [le_div_iff₀ hδpos]; linarith
      have hs := sBranch_mem hg0 hr1 (by linarith)
      exact ⟨⟨by linarith, by linarith⟩, hs, by constructor <;> linarith⟩
  · by_cases hG : r ≤ g ∧ b ≤ g
    · obtain ⟨hrg, hbg⟩ := hG
      have hrg' : r < g := by
        rcases lt_or_eq_of_le hrg with hlt | heq
        · exact hlt
        · exact absurd ⟨heq.ge, heq ▸ hbg⟩ hR
      rcases le_or_lt r b with hrb | hbr
      · rw [rgb_to_hsl_G1 hrb hbg hrg']
        have hδpos : (0:ℚ) < g - r := by linarith
        have hq0 : 0 ≤ (b - r) / (g - r) := div_nonneg (by linarith) (by linarith)
        have hq1 : (b - r) / (g - r) ≤ 1 := by rw [div_le_one hδpos]; linarith
        have hs := sBranch_mem hr0 hg1 (by linarith)
        exact ⟨⟨by linarith, by linarith⟩, hs, by constructor <;> linarith⟩
      · rw [rgb_to_hsl_G2 hbr hrg']
        have hbg2 : b < g := lt_trans hbr hrg'
        have hδpos : (0:ℚ) < g - b := by linarith
        have hqm : (-1:ℚ) < (b - r) / (g - b) := by rw [lt_div_iff₀ hδpos]; linarith
        have hq0 : (b - r) / (g - b) < 0 := div_neg_of_neg_of_pos (by linarith) hδpos
        have hs := sBranch_mem hb0 hg1 (by linarith)
        exact ⟨⟨by linarith, by linarith⟩, hs, by constructor <;> linarith⟩
    · have hrb_and : r < b ∧ g < b := by
        rcases le_total g r with hle | hle
        · have hb' : ¬ b ≤ r := fun hc => hR ⟨hle, hc⟩
          push_neg at hb'
          exact ⟨hb', lt_of_le_of_lt hle hb'⟩
        · have hb' : ¬ b ≤ g := fun hc => hG ⟨hle, hc⟩
          push_neg at hb'
          exact ⟨lt_of_le_of_lt hle hb', hb'⟩
      obtain ⟨hrb, hgb⟩ := hrb_and
      rcases le_or_lt g r with hgr | hrg
      · rw [rgb_to_hsl_B1 hgr hrb]
        have hδpos : (0:ℚ) < b - g := by linarith
        have hq0 : 0 ≤ (r - g) / (b - g) := div_nonneg (by linarith) (by linarith)
        have hq1 : (r - g) / (b - g) ≤ 1 := by rw [div_le_one hδpos]; linarith
        have hs := sBranch_mem hg0 hb1 (by linarith)
        exact ⟨⟨by linarith, by linarith⟩, hs, by constructor <;> linarith⟩
      · rw [rgb_to_hsl_B2 hrg hgb]
        have hδpos : (0:ℚ) < b - r := by linarith
        have hqm : (-1:ℚ) < (r - g) / (b - r) := by rw [lt_div_iff₀ hδpos]; linarith
        have hq0 : (r - g) / (b - r) < 0 := div_neg_of_neg_of_pos (by linarith) hδpos
        have hs := sBranch_mem hr0 hb1 (by linarith)
        exact ⟨⟨by linarith, by linarith⟩, hs, by constructor <;> linarith⟩

theorem hsl_to_rgb_mem {h s l : ℚ} (_hh0 : 0 ≤ h) (_hh1 : h ≤ 1) (hs0 : 0 ≤ s) (hs1 : s ≤ 1)
    (hl0 : 0 ≤ l) (hl1 : l ≤ 1) :
    (0 ≤ (hsl_to_rgb h s l).1 ∧ (hsl_to_rgb h s l).1 ≤ 1) ∧
    (0 ≤ (hsl_to_rgb h s l).2.1 ∧ (hsl_to_rgb h s l).2.1 ≤ 1) ∧
    (0 ≤ (hsl_to_rgb h s l).2.2 ∧ (hsl_to_rgb h s l).2.2 ≤ 1) := by
  have habs : -(2 * l - 1) ≤ |2 * l - 1| := neg_le_abs _
  have habs' : 2 * l - 1 ≤ |2 * l - 1| := le_abs_self _
  have habs1 : |2 * l - 1| ≤ 1 := abs_le.mpr ⟨by linarith, by linarith⟩
  have hpm0 := pmod2_nonneg (h * 6)
  have hpm2 := pmod2_lt_two (h * 6)
  have habsx : |pmod2 (h * 6) - 1| ≤ 1 := abs_le.mpr ⟨by linarith, by linarith⟩
  have habsx0 : 0 ≤ |pmod2 (h * 6) - 1| := abs_nonneg _
  have hc0 : 0 ≤ (1 - |2 * l - 1|) * s := mul_nonneg (by linarith) hs0
  have hcl : (1 - |2 * l - 1|) * s ≤ 1 - |2 * l - 1| :=
    mul_le_of_le_one_right (by linarith) hs1
  have hcle1 : (1 - |2 * l - 1|) * s ≤ 2 * l := by linarith
  have hcle2 : (1 - |2 * l - 1|) * s ≤ 2 - 2 * l := by linarith
  have hx0 : 0 ≤ (1 - |2 * l - 1|) * s * (1 - |pmod2 (h * 6) - 1|) :=
    mul_nonneg hc0 (by linarith)
  have hxc : (1 - |2 * l - 1|) * s * (1 - |pmod2 (h * 6) - 1|) ≤ (1 - |2 * l - 1|) * s :=
    mul_le_of_le_one_right hc0 (by linarith)
  simp only [hsl_to_rgb]
  split_ifs <;>
    exact ⟨⟨by linarith, by linarith⟩, ⟨by linarith, by linarith⟩, ⟨by linarith, by linarith⟩⟩

/-! ### Behavior of the `Color` setters -/

theorem setRgb_none_inRange (c : Color) {x y z : ℚ} (hx0 : 0 ≤ x) (hx1 : x ≤ 1)
    (hy0 : 0 ≤ y) (hy1 : y ≤ 1) (hz0 : 0 ≤ z) (hz1 : z ≤ 1) :
    c.setRgb x y z none = .ok ⟨quant x, quant y, quant z, quant c.a⟩ := by
  unfold Color.setRgb
  split_ifs with hcond
  · rfl
  · exact absurd ⟨hx0, hx1, hy0, hy1, hz0, hz1⟩ hcond

theorem setRgb_some_inRange (c : Color) {x y z a : ℚ} (hx0 : 0 ≤ x) (hx1 : x ≤ 1)
    (hy0 : 0 ≤ y) (hy1 : y ≤ 1) (hz0 : 0 ≤ z) (hz1 : z ≤ 1) (ha0 : 0 ≤ a) (ha1 : a ≤ 1) :
    c.setRgb x y z (some a) = .ok ⟨quant x, quant y, quant z, quant a⟩ := by
  unfold Color.setRgb
  split_ifs with hcond
  · show (if 0 ≤ a ∧ a ≤ 1 then
        Except.ok (⟨quant x, quant y, quant z, quant a⟩ : Color)
      else Except.error ColorError.outOfRange) = _
    rw [if_pos ⟨ha0, ha1⟩]
  · exact absurd ⟨hx0, hx1, hy0, hy1, hz0, hz1⟩ hcond

theorem setHsl_none_inRange (c : Color) {x y z : ℚ} (hx0 : 0 ≤ x) (hx1 : x ≤ 1)
    (hy0 : 0 ≤ y) (hy1 : y ≤ 1) (hz0 : 0 ≤ z) (hz1 : z ≤ 1) :
    c.setHsl x y z none =
      .ok ⟨quant (hsl_to_rgb x y z).1, quant (hsl_to_rgb x y z).2.1,
           quant (hsl_to_rgb x y z).2.2, quant c.a⟩ := by
  unfold Color.setHsl
  split_ifs with hcond
  · rfl
  · exact absurd ⟨hx0, hx1, hy0, hy1, hz0, hz1⟩ hcond

theorem setHsl_some_inRange (c : Color) {x y z a : ℚ} (hx0 : 0 ≤ x) (hx1 : x ≤ 1)
    (hy0 : 0 ≤ y) (hy1 : y ≤ 1) (hz0 : 0 ≤ z) (hz1 : z ≤ 1) (ha0 : 0 ≤ a) (ha1 : a ≤ 1) :
    c.setHsl x y z (some a) =
      .ok ⟨quant (hsl_to_rgb x y z).1, quant (hsl_to_rgb x y z).2.1,
           quant (hsl_to_rgb x y z).2.2, quant a⟩ := by
  unfold Color.setHsl
  split_ifs with hcond
  · show (if 0 ≤ a ∧ a ≤ 1 then
        Except.ok (⟨quant (hsl_to_rgb x y z).1, quant (hsl_to_rgb x y z).2.1,
          quant (hsl_to_rgb x y z).2.2, quant a⟩ : Color)
      else Except.error ColorError.outOfRange) = _
    rw [if_pos ⟨ha0, ha1⟩]
  · exact absurd ⟨hx0, hx1, hy0, hy1, hz0, hz1⟩ hcond

/-! ### `darken` / `lighten` -/

theorem hsl_to_rgb_lzero (h s : ℚ) : hsl_to_rgb h s 0 = (0, 0, 0) := by
  simp only [hsl_to_rgb]
  norm_num

theorem hsl_to_rgb_lone (h s : ℚ) : hsl_to_rgb h s 1 = (1, 1, 1) := by
  simp only [hsl_to_rgb]
  norm_num

theorem darken_zero {c : Color} (hv : c.Valid) : c.darken 0 = .ok c := by
  obtain ⟨hr, hg, hb, ha⟩ := hv
  have hmem := rgb_to_hsl_mem hr.1 hr.2.1 hg.1 hg.2.1 hb.1 hb.2.1
  unfold Color.darken
  rw [if_pos ⟨le_refl 0, zero_le_one⟩]
  have hl : max 0 ((rgb_to_hsl c.r c.g c.b).2.2 - (rgb_to_hsl c.r c.g c.b).2.2 * 0) =
      (rgb_to_hsl c.r c.g c.b).2.2 := by
    rw [mul_zero, sub_zero]
    exact max_eq_right hmem.2.2.1
  rw [hl, setHsl_some_inRange c hmem.1.1 hmem.1.2 hmem.2.1.1 hmem.2.1.2 hmem.2.2.1
    hmem.2.2.2 ha.1 ha.2.1]
  rw [hsl_rgb_roundTrip hr.1 hr.2.1 hg.1 hg.2.1 hb.1 hb.2.1]
  rw [show ((c.r, c.g, c.b) : ℚ × ℚ × ℚ).1 = c.r from rfl]
  rw [show ((c.r, c.g, c.b) : ℚ × ℚ × ℚ).2.1 = c.g from rfl]
  rw [show ((c.r, c.g, c.b) : ℚ × ℚ × ℚ).2.2 = c.b from rfl]
  rw [hr.2.2, hg.2.2, hb.2.2, ha.2.2]

theorem lighten_zero {c : Color} (hv : c.Valid) : c.lighten 0 = .ok c := by
  obtain ⟨hr, hg, hb, ha⟩ := hv
  have hmem := rgb_to_hsl_mem hr.1 hr.2.1 hg.1 hg.2.1 hb.1 hb.2.1
  unfold Color.lighten
  rw [if_pos ⟨le_refl 0, zero_le_one⟩]
  have hl : min 1 ((rgb_to_hsl c.r c.g c.b).2.2 +
      (1 - (rgb_to_hsl c.r c.g c.b).2.2) * 0) = (rgb_to_hsl c.r c.g c.b).2.2 := by
    rw [mul_zero, add_zero]
    exact min_eq_right hmem.2.2.2
  rw [hl, setHsl_some_inRange c hmem.1.1 hmem.1.2 hmem.2.1.1 hmem.2.1.2 hmem.2.2.1
    hmem.2.2.2 ha.1 ha.2.1]
  rw [hsl_rgb_roundTrip hr.1 hr.2.1 hg.1 hg.2.1 hb.1 hb.2.1]
  rw [show ((c.r, c.g, c.b) : ℚ × ℚ × ℚ).1 = c.r from rfl]
  rw [show ((c.r, c.g, c.b) : ℚ × ℚ × ℚ).2.1 = c.g from rfl]
  rw [show ((c.r, c.g, c.b) : ℚ × ℚ × ℚ).2.2 = c.b from rfl]
  rw [hr.2.2, hg.2.2, hb.2.2, ha.2.2]

theorem darken_one {c : Color} (hv : c.Valid) : c.darken 1 = .ok ⟨0, 0, 0, c.a⟩ := by
  obtain ⟨hr, hg, hb, ha⟩ := hv
  have hmem := rgb_to_hsl_mem hr.1 hr.2.1 hg.1 hg.2.1 hb.1 hb.2.1
  unfold Color.darken
  rw [if_pos ⟨zero_le_one, le_refl 1⟩]
  have hl : max 0 ((rgb_to_hsl c.r c.g c.b).2.2 - (rgb_to_hsl c.r c.g c.b).2.2 * 1) =
      0 := by rw [mul_one, sub_self, max_self]
  rw [hl, setHsl_some_inRange c hmem.1.1 hmem.1.2 hmem.2.1.1 hmem.2.1.2 (le_refl 0)
    zero_le_one ha.1 ha.2.1]
  rw [hsl_to_rgb_lzero]
  show Except.ok (⟨quant 0, quant 0, quant 0, quant c.a⟩ : Color) =
    Except.ok (⟨0, 0, 0, c.a⟩ : Color)
  rw [quant_zero, ha.2.2]

theorem lighten_one {c : Color} (hv : c.Valid) : c.lighten 1 = .ok ⟨1, 1, 1, c.a⟩ := by
  obtain ⟨hr, hg, hb, ha⟩ := hv
  have hmem := rgb_to_hsl_mem hr.1 hr.2.1 hg.1 hg.2.1 hb.1 hb.2.1
  unfold Color.lighten
  rw [if_pos ⟨zero_le_one, le_refl 1⟩]
  have hl : min 1 ((rgb_to_hsl c.r c.g c.b).2.2 +
      (1 - (rgb_to_hsl c.r c.g c.b).2.2) * 1) = 1 := by rw [mul_one]; ring_nf; rw [min_self]
  rw [hl, setHsl_some_inRange c hmem.1.1 hmem.1.2 hmem.2.1.1 hmem.2.1.2 zero_le_one
    (le_refl 1) ha.1 ha.2.1]
  rw [hsl_to_rgb_lone]
  show Except.ok (⟨quant 1, quant 1, quant 1, quant c.a⟩ : Color) =
    Except.ok (⟨1, 1, 1, c.a⟩ : Color)
  rw [quant_one, ha.2.2]

theorem darken_alpha {c : Color} (hv : c.Valid) {q : ℚ} (hq0 : 0 ≤ q) (hq1 : q ≤ 1) :
    (c.darken q).map Color.a = .ok c.a := by
  obtain ⟨hr, hg, hb, ha⟩ := hv
  have hmem := rgb_to_hsl_mem hr.1 hr.2.1 hg.1 hg.2.1 hb.1 hb.2.1
  unfold Color.darken
  rw [if_pos ⟨hq0, hq1⟩]
  have hl0 : (0:ℚ) ≤ max 0 ((rgb_to_hsl c.r c.g c.b).2.2 -
      (rgb_to_hsl c.r c.g c.b).2.2 * q) := le_max_left 0 _
  have hl1 : max 0 ((rgb_to_hsl c.r c.g c.b).2.2 -
      (rgb_to_hsl c.r c.g c.b).2.2 * q) ≤ 1 := by
    rw [max_le_iff]
    constructor
    · norm_num
    · nlinarith [hmem.2.2.1, hmem.2.2.2]
  rw [setHsl_some_inRange c hmem.1.1 hmem.1.2 hmem.2.1.1 hmem.2.1.2 hl0 hl1 ha.1 ha.2.1]
  simp only [Except.map]
  rw [ha.2.2]

theorem lighten_alpha {c : Color} (hv : c.Valid) {q : ℚ} (hq0 : 0 ≤ q) (hq1 : q ≤ 1) :
    (c.lighten q).map Color.a = .ok c.a := by
  obtain ⟨hr, hg, hb, ha⟩ := hv
  have hmem := rgb_to_hsl_mem hr.1 hr.2.1 hg.1 hg.2.1 hb.1 hb.2.1
  unfold Color.lighten
  rw [if_pos ⟨hq0, hq1⟩]
  have hl0 : (0:ℚ) ≤ min 1 ((rgb_to_hsl c.r c.g c.b).2.2 +
      (1 - (rgb_to_hsl c.r c.g c.b).2.2) * q) := by
    rw [le_min_iff]
    constructor
    · norm_num
    · nlinarith [hmem.2.2.1, hmem.2.2.2]
  have hl1 : min 1 ((rgb_to_hsl c.r c.g c.b).2.2 +
      (1 - (rgb_to_hsl c.r c.g c.b).2.2) * q) ≤ 1 := min_le_left 1 _
  rw [setHsl_some_inRange c hmem.1.1 hmem.1.2 hmem.2.1.1 hmem.2.1.2 hl0 hl1 ha.1 ha.2.1]
  simp only [Except.map]
  rw [ha.2.2]

/-! ### `pyMin`, `idxOfQ`, `minIndex` -/

theorem pyMin_mem (x : ℚ) (xs : List ℚ) : pyMin x xs ∈ x :: xs := by
  induction xs generalizing x with
  | nil => simp [pyMin]
  | cons y ys ih =>
    have hstep : pyMin x (y :: ys) = pyMin (min x y) ys := rfl
    rw [hstep]
    rcases List.mem_cons.mp (ih (min x y)) with h1 | h1
    · rcases min_choice x y with hm | hm
      · rw [h1, hm]; exact List.mem_cons_self _ _
      · rw [h1, hm]; exact List.mem_cons_of_mem _ (List.mem_cons_self _ _)
    · exact List.mem_cons_of_mem _ (List.mem_cons_of_mem _ h1)

theorem pyMin_le (x : ℚ) (xs : List ℚ) : ∀ y ∈ x :: xs, pyMin x xs ≤ y := by
  induction xs generalizing x with
  | nil =>
    intro y hy
    simp only [List.mem_singleton] at hy
    simp [pyMin, hy]
  | cons z zs ih =>
    intro y hy
    have hstep : pyMin x (z :: zs) = pyMin (min x z) zs := rfl
    rw [hstep]
    have hhead : pyMin (min x z) zs ≤ min x z := ih (min x z) (min x z) (List.mem_cons_self _ _)
    rcases List.mem_cons.mp hy with h1 | h1
    · rw [h1]
      exact hhead.trans (min_le_left x z)
    · rcases List.mem_cons.mp h1 with h2 | h2
      · rw [h2]
        exact hhead.trans (min_le_right x z)
      · exact ih (min x z) y (List.mem_cons_of_mem _ h2)

theorem idxOfQ_spec (v : ℚ) (l : List ℚ) (hv : v ∈ l) :
    idxOfQ v l < l.length ∧ l.getD (idxOfQ v l) 0 = v ∧
      ∀ j < idxOfQ v l, l.getD j 0 ≠ v := by
  induction l with
  | nil => cases hv
  | cons x xs ih =>
    by_cases hx : x = v
    · refine ⟨?_, ?_, ?_⟩
      · simp [idxOfQ, hx]
      · simp [idxOfQ, hx]
      · intro j hj
        simp [idxOfQ, hx] at hj
    · have hv' : v ∈ xs := by
        rcases List.mem_cons.mp hv with h1 | h1
        · exact absurd h1.symm hx
        · exact h1
      obtain ⟨h1, h2, h3⟩ := ih hv'
      have hidx : idxOfQ v (x :: xs) = idxOfQ v xs + 1 := by simp [idxOfQ, hx]
      refine ⟨?_, ?_, ?_⟩
      · rw [hidx]; simp only [List.length_cons]; omega
      · rw [hidx, List.getD_cons_succ]; exact h2
      · intro j hj
        rw [hidx] at hj
        cases j with
        | zero => simpa [List.getD_cons_zero] using hx
        | succ n =>
          rw [List.getD_cons_succ]
          exact h3 n (by omega)

theorem minIndex_spec (x : ℚ) (xs : List ℚ) :
    minIndex (x :: xs) < (x :: xs).length ∧
    (∀ j < (x :: xs).length, (x :: xs).getD (minIndex (x :: xs)) 0 ≤ (x :: xs).getD j 0) ∧
    (∀ j < minIndex (x :: xs), (x :: xs).getD j 0 > (x :: xs).getD (minIndex (x :: xs)) 0) := by
  have hmem : pyMin x xs ∈ x :: xs := pyMin_mem x xs
  have hminle := pyMin_le x xs
  have hidx : minIndex (x :: xs) = idxOfQ (pyMin x xs) (x :: xs) := rfl
  obtain ⟨h1, h2, h3⟩ := idxOfQ_spec (pyMin x xs) (x :: xs) hmem
  rw [hidx]
  refine ⟨h1, ?_, ?_⟩
  · intro j hj
    rw [h2]
    have : (x :: xs).getD j 0 ∈ x :: xs := by
      rw [List.getD_eq_getElem _ _ hj]
      exact List.getElem_mem _
    exact hminle _ this
  · intro j hj
    rw [h2]
    have hjlt : j < (x :: xs).length := lt_trans hj h1
    have hne : (x :: xs).getD j 0 ≠ pyMin x xs := h3 j hj
    have hge : pyMin x xs ≤ (x :: xs).getD j 0 := by
      apply hminle
      rw [List.getD_eq_getElem _ _ hjlt]
      exact List.getElem_mem _
    exact lt_of_le_of_ne hge (Ne.symm hne)

/-! ### Python dict semantics over association lists -/

theorem dictLookup_append {α : Type} (d₁ d₂ : List (Color × α)) (k : Color) :
    dictLookup (d₁ ++ d₂) k =
      if (dictLookup d₁ k).isSome then dictLookup d₁ k else dictLookup d₂ k := by
  induction d₁ with
  | nil => simp [dictLookup]
  | cons e es ih =>
    by_cases he : e.1 = k
    · simp [dictLookup, he]
    · simpa [dictLookup, he] using ih

theorem dictLookup_mapSet_self {α : Type} (d : List (Color × α)) (k : Color) (v : α) (w : α)
    (hw : dictLookup d k = some w) :
    dictLookup (d.map (fun e => if e.1 = k then (k, v) else e)) k = some v := by
  induction d with
  | nil => simp [dictLookup] at hw
  | cons e es ih =>
    by_cases he : e.1 = k
    · simp [dictLookup, he]
    · have hw' : dictLookup es k = some w := by simpa [dictLookup, he] using hw
      simpa [dictLookup, he] using ih hw'

theorem dictLookup_mapSet_other {α : Type} (d : List (Color × α)) (k : Color) (v : α)
    (k' : Color) (hne : k' ≠ k) :
    dictLookup (d.map (fun e => if e.1 = k then (k, v) else e)) k' = dictLookup d k' := by
  induction d with
  | nil => rfl
  | cons e es ih =>
    by_cases he : e.1 = k
    · have : ¬(k = k') := fun hc => hne hc.symm
      simp [dictLookup, he, this, ih]
    · by_cases he' : e.1 = k'
      · simp [dictLookup, he, he', hne]
      · simp [dictLookup, he, he', ih]

theorem dictLookup_dictSet_self {α : Type} (d : List (Color × α)) (k : Color) (v : α) :
    dictLookup (dictSet d k v) k = some v := by
  unfold dictSet
  split_ifs with hpres
  · obtain ⟨w, hw⟩ := Option.isSome_iff_exists.mp hpres
    exact dictLookup_mapSet_self d k v w hw
  · rw [dictLookup_append]
    rw [if_neg hpres]
    simp [dictLookup]

theorem dictLookup_dictSet_other {α : Type} (d : List (Color × α)) (k : Color) (v : α)
    (k' : Color) (hne : k' ≠ k) :
    dictLookup (dictSet d k v) k' = dictLookup d k' := by
  unfold dictSet
  split_ifs with hpres
  · exact dictLookup_mapSet_other d k v k' hne
  · rw [dictLookup_append]
    split_ifs with h2
    · rfl
    · rw [Option.not_isSome_iff_eq_none.mp h2]
      have hkk : ¬(k = k') := fun hc => hne hc.symm
      simp [dictLookup, hkk]

/-! ### The filter built by `generateFilter` -/

theorem diffSq_nonneg (a b : Color) : 0 ≤ diffSq a b := by
  unfold diffSq
  positivity

theorem generateFilterStep_fst (palette : List Color)
    (acc : List (Color × Color) × List (Color × ℕ)) (oc : Color) :
    (generateFilterStep palette acc oc).1 = dictSet acc.1 oc (closestEntry palette oc) := rfl

theorem generateFilterWith_lookup_aux (palette : List Color) (ics : List Color) :
    ∀ acc c, dictLookup (ics.foldl (generateFilterStep palette) acc).1 c =
      if c ∈ ics then some (closestEntry palette c) else dictLookup acc.1 c := by
  induction ics with
  | nil =>
    intro acc c
    simp
  | cons oc rest ih =>
    intro acc c
    rw [List.foldl_cons, ih]
    by_cases hc : c ∈ rest
    · rw [if_pos hc, if_pos (List.mem_cons_of_mem _ hc)]
    · rw [if_neg hc]
      by_cases hco : c = oc
      · subst hco
        rw [if_pos (List.mem_cons_self _ _), generateFilterStep_fst]
        exact dictLookup_dictSet_self _ _ _
      · rw [if_neg (by simp [hco, hc] : ¬ c ∈ oc :: rest), generateFilterStep_fst]
        exact dictLookup_dictSet_other _ _ _ _ hco

theorem generateFilterWith_lookup (palette : List Color) (ics : List Color) (c : Color)
    (hc : c ∈ ics) :
    dictLookup (generateFilterWith palette ics).1 c = some (closestEntry palette c) := by
  unfold generateFilterWith
  rw [generateFilterWith_lookup_aux palette ics ([], []) c, if_pos hc]

/-! ### The claims -/

/-- Claim C1: for every pair of colors, `Color.diff` equals
`sqrt(2*(h1-h2)^2 + (s1-s2)^2 + (l1-l2)^2)` over the derived HSL
components with alpha excluded (`diffSq` is the embedded radicand of the
source's `math.sqrt`), and there is no circular-hue wraparound: the colors
`(255,0,15)` and `(255,15,0)` have hues `101/102 ≈ 0.99` and
`1/102 ≈ 0.01` (the representable hues nearest 0.99 and 0.01), and their
squared distance is the large `2*(50/51)^2 > 1`, even though the circular
hue distance is only `1/51`. -/
theorem claim_C1 :
    (∀ a b : Color,
      Real.sqrt (diffSq a b : ℝ) =
        Real.sqrt (2 * ((a.hsl.1 : ℝ) - (b.hsl.1 : ℝ)) ^ 2 +
          ((a.hsl.2.1 : ℝ) - (b.hsl.2.1 : ℝ)) ^ 2 +
          ((a.hsl.2.2.1 : ℝ) - (b.hsl.2.2.1 : ℝ)) ^ 2)) ∧
    Color.h ⟨1, 0, 15/255, 1⟩ = 101/102 ∧
    Color.h ⟨1, 15/255, 0, 1⟩ = 1/102 ∧
    diffSq ⟨1, 0, 15/255, 1⟩ ⟨1, 15/255, 0, 1⟩ = 2 * (50/51) ^ 2 ∧
    1 < diffSq ⟨1, 0, 15/255, 1⟩ ⟨1, 15/255, 0, 1⟩ := by
  refine ⟨?_, ?_, ?_, ?_, ?_⟩
  · intro a b
    congr 1
    unfold diffSq
    push_cast
    ring
  · norm_num [Color.h, rgb_to_hsl, max_def, min_def]
  · norm_num [Color.h, rgb_to_hsl, max_def, min_def]
  · norm_num [diffSq, Color.hsl, rgb_to_hsl, max_def, min_def]
  · norm_num [diffSq, Color.hsl, rgb_to_hsl, max_def, min_def]

/-- Claim C3: constructing a `Color` from an 8-bit `(r,g,b)` triple and
reading back `rgb255` returns exactly the same integers (with the default
opaque alpha reading back as 255). -/
theorem claim_C3 (r g b : ℕ) (hr : r ≤ 255) (hg : g ≤ 255) (hb : b ≤ 255) :
    (Color.ofRgb255 r g b).map Color.rgb255 = .ok ((r : ℤ), (g : ℤ), (b : ℤ), 255) := by
  have hq : ∀ n : ℕ, quant ((n : ℚ) / 255) = (n : ℚ) / 255 := by
    intro n
    have h := quant_div255 (n : ℤ)
    push_cast at h
    exact h
  have hc0 : ∀ n : ℕ, (0 : ℚ) ≤ (n : ℚ) / 255 := fun n => by positivity
  have hc1 : ∀ n : ℕ, n ≤ 255 → (n : ℚ) / 255 ≤ 1 := by
    intro n hn
    rw [div_le_one (by norm_num : (0:ℚ) < 255)]
    exact_mod_cast hn
  have hround : ∀ n : ℕ, pyRound ((n : ℚ) / 255 * 255) = (n : ℤ) := by
    intro n
    rw [div_mul_cancel₀ _ (by norm_num : (255:ℚ) ≠ 0)]
    exact_mod_cast pyRound_intCast (n : ℤ)
  unfold Color.ofRgb255
  rw [setRgb_none_inRange colorDefault (hc0 r) (hc1 r hr) (hc0 g) (hc1 g hg) (hc0 b)
    (hc1 b hb)]
  simp only [Except.map]
  show Except.ok
      (Color.rgb255 ⟨quant ((r : ℚ) / 255), quant ((g : ℚ) / 255), quant ((b : ℚ) / 255),
        quant 1⟩) = _
  unfold Color.rgb255
  show Except.ok
      (pyRound (quant ((r : ℚ) / 255) * 255), pyRound (quant ((g : ℚ) / 255) * 255),
       pyRound (quant ((b : ℚ) / 255) * 255), pyRound (quant 1 * 255)) = _
  rw [hq r, hq g, hq b, quant_one, hround r, hround g, hround b]
  norm_num
  exact_mod_cast pyRound_intCast 255

/-- Witness for claim C3 at the triple `(12, 34, 56)`. -/
theorem claim_C3_witness :
    (Color.ofRgb255 12 34 56).map Color.rgb255 = .ok ((12 : ℤ), 34, 56, 255) :=
  claim_C3 12 34 56 (by norm_num) (by norm_num) (by norm_num)

/-- Claim C10: `Color(c)` for `c` itself a `Color` runs `self = initial`,
which only rebinds the local name, so the constructed object is the
opaque-black default whatever `c` is. -/
theorem claim_C10 : ∀ c : Color, Color.ofColor c = colorDefault ∧ colorDefault = ⟨0, 0, 0, 1⟩ :=
  fun _ => ⟨rfl, rfl⟩

/-- Claim C4 (divergence witness): `hex_to_rgb` does enforce the 6-or-8
length rule and parses and normalizes all channel pairs, but a valid
6-digit input comes back with alpha `1/255`, not the claimed fully-opaque
`1.0`: the source defaults the missing alpha to the integer `1` and then
divides all four components by 255. -/
theorem claim_C4_eval :
    hex_to_rgb ['f', 'f', 'f', 'f', 'f', 'f'] = .ok (1, 1, 1, 1/255) ∧
    ((1 : ℚ) / 255) ≠ 1 ∧
    hex_to_rgb ['#', 'f', 'f', 'f', 'f', 'f'] = .error .invalidFormat ∧
    hex_to_rgb ['f', 'f', 'f', 'f', 'f', 'f', '8', '0'] = .ok (1, 1, 1, 128/255) := by
  have h6 : hex_to_rgb ['f', 'f', 'f', 'f', 'f', 'f'] =
      .ok (((255:ℕ) : ℚ)/255, ((255:ℕ) : ℚ)/255, ((255:ℕ) : ℚ)/255, (1 : ℚ)/255) := rfl
  have h8 : hex_to_rgb ['f', 'f', 'f', 'f', 'f', 'f', '8', '0'] =
      .ok (((255:ℕ) : ℚ)/255, ((255:ℕ) : ℚ)/255, ((255:ℕ) : ℚ)/255, ((128:ℕ) : ℚ)/255) :=
    rfl
  refine ⟨?_, by norm_num, rfl, ?_⟩
  · rw [h6]
    norm_num
  · rw [h8]
    norm_num

/-- Claim C5 (divergence witness): the opaque round-trip fails — encoding
pure red and decoding returns alpha `1/255`, not the original `1` — and
the alpha variant of `rgb_to_hex` never succeeds at all, because the
source formats the float `a * 255` with the `x` format code, which raises
`ValueError` for every alpha. -/
theorem claim_C5_eval :
    rgb_to_hex 1 0 0 none = .ok ['#', 'f', 'f', '0', '0', '0', '0'] ∧
    hex_to_rgb ['#', 'f', 'f', '0', '0', '0', '0'] = .ok (1, 0, 0, 1/255) ∧
    ((1 : ℚ), (0 : ℚ), (0 : ℚ), (1 : ℚ)/255) ≠ (Color.mk 1 0 0 1).rgb ∧
    (∀ r g b a : ℚ, rgb_to_hex r g b (some a) = .error .formatError) := by
  have hp : hex_to_rgb ['#', 'f', 'f', '0', '0', '0', '0'] =
      .ok (((255:ℕ) : ℚ)/255, ((0:ℕ) : ℚ)/255, ((0:ℕ) : ℚ)/255, (1 : ℚ)/255) := rfl
  have h1 : pyRound ((1:ℚ) * 255) = 255 := by norm_num [pyRound, round_eq]
  have h2 : pyRound ((0:ℚ) * 255) = 0 := by norm_num [pyRound, round_eq]
  refine ⟨?_, ?_, ?_, fun _ _ _ _ => rfl⟩
  · rw [rgb_to_hex, h1, h2]
    rfl
  · rw [hp]
    norm_num
  · norm_num [Color.rgb]

/-- Claim C2: `generateFilter` (over any fixed nonempty palette list, in
particular `LEGO_COLORS_LIST`) maps every source color to the palette
entry of minimum `diff` distance against its opaque-alpha copy, ties going
to the first palette entry in declaration order; the mapping is a pure
function of the palette and the source colors, so repeated runs are
identical. Minimality and the strict tie-break are stated both for the
rational radicand `diffSq` and, via the strict monotonicity of the square
root, for the float `diff = sqrt diffSq` the source compares. -/
theorem claim_C2 (palette : List Color) (hp : palette ≠ []) (ics : List Color) (c : Color)
    (hc : c ∈ ics) :
    dictLookup (generateFilterWith palette ics).1 c = some (closestEntry palette c) ∧
    closestEntry palette c ∈ palette ∧
    (∀ p ∈ palette, diffSq { c with a := quant 1 } (closestEntry palette c) ≤
      diffSq { c with a := quant 1 } p) ∧
    (∀ j < minIndex (palette.map (fun cmp => diffSq { c with a := quant 1 } cmp)),
      diffSq { c with a := quant 1 } (closestEntry palette c) <
        diffSq { c with a := quant 1 } (palette.getD j colorDefault)) ∧
    closestEntry palette c =
      palette.getD (minIndex (palette.map (fun cmp => diffSq { c with a := quant 1 } cmp)))
        colorDefault ∧
    (∀ p ∈ palette,
      Real.sqrt (diffSq { c with a := quant 1 } (closestEntry palette c) : ℝ) ≤
        Real.sqrt (diffSq { c with a := quant 1 } p : ℝ)) ∧
    (∀ j < minIndex (palette.map (fun cmp => diffSq { c with a := quant 1 } cmp)),
      Real.sqrt (diffSq { c with a := quant 1 } (closestEntry palette c) : ℝ) <
        Real.sqrt (diffSq { c with a := quant 1 } (palette.getD j colorDefault) : ℝ)) := by
  obtain ⟨p0, ps, rfl⟩ : ∃ p0 ps, palette = p0 :: ps := by
    cases palette with
    | nil => exact absurd rfl hp
    | cons p0 ps => exact ⟨p0, ps, rfl⟩
  have hlookup := generateFilterWith_lookup (p0 :: ps) ics c hc
  obtain ⟨hlen, hle, hfirst⟩ :=
    minIndex_spec (diffSq { c with a := quant 1 } p0)
      (ps.map (fun cmp => diffSq { c with a := quant 1 } cmp))
  have hmapeq : diffSq { c with a := quant 1 } p0 ::
      ps.map (fun cmp => diffSq { c with a := quant 1 } cmp) =
      (p0 :: ps).map (fun cmp => diffSq { c with a := quant 1 } cmp) := rfl
  rw [hmapeq] at hlen hle hfirst
  have hlenmap : ((p0 :: ps).map (fun cmp => diffSq { c with a := quant 1 } cmp)).length =
      (p0 :: ps).length := List.length_map _ _
  have hlen' : minIndex ((p0 :: ps).map (fun cmp => diffSq { c with a := quant 1 } cmp)) <
      (p0 :: ps).length := by rw [← hlenmap]; exact hlen
  have hgetD : ∀ j, j < (p0 :: ps).length →
      ((p0 :: ps).map (fun cmp => diffSq { c with a := quant 1 } cmp)).getD j 0 =
        diffSq { c with a := quant 1 } ((p0 :: ps).getD j colorDefault) := by
    intro j hj
    rw [List.getD_eq_getElem _ _ (by rw [hlenmap]; exact hj),
      List.getD_eq_getElem _ _ hj, List.getElem_map]
  have hclosest : closestEntry (p0 :: ps) c =
      (p0 :: ps).getD
        (minIndex ((p0 :: ps).map (fun cmp => diffSq { c with a := quant 1 } cmp)))
        colorDefault := rfl
  have hmin_eval : diffSq { c with a := quant 1 } (closestEntry (p0 :: ps) c) =
      ((p0 :: ps).map (fun cmp => diffSq { c with a := quant 1 } cmp)).getD
        (minIndex ((p0 :: ps).map (fun cmp => diffSq { c with a := quant 1 } cmp))) 0 := by
    rw [hclosest, hgetD _ hlen']
  have hminimal : ∀ p ∈ p0 :: ps,
      diffSq { c with a := quant 1 } (closestEntry (p0 :: ps) c) ≤
        diffSq { c with a := quant 1 } p := by
    intro p hpmem
    obtain ⟨j, hj, rfl⟩ := List.mem_iff_getElem.mp hpmem
    rw [hmin_eval]
    have := hle j (by rw [hlenmap]; exact hj)
    rw [hgetD j hj, List.getD_eq_getElem _ _ hj] at this
    exact this
  have htie : ∀ j < minIndex ((p0 :: ps).map (fun cmp => diffSq { c with a := quant 1 } cmp)),
      diffSq { c with a := quant 1 } (closestEntry (p0 :: ps) c) <
        diffSq { c with a := quant 1 } ((p0 :: ps).getD j colorDefault) := by
    intro j hj
    have hjlen : j < (p0 :: ps).length := lt_trans hj hlen'
    rw [hmin_eval]
    have := hfirst j hj
    rw [hgetD j hjlen] at this
    exact this
  refine ⟨hlookup, ?_, hminimal, htie, hclosest, ?_, ?_⟩
  · rw [hclosest, List.getD_eq_getElem _ _ hlen']
    exact List.getElem_mem _
  · intro p hpmem
    exact Real.sqrt_le_sqrt (by exact_mod_cast hminimal p hpmem)
  · intro j hj
    exact Real.sqrt_lt_sqrt (by exact_mod_cast diffSq_nonneg _ _)
      (by exact_mod_cast htie j hj)

/-- Witness for claim C2: the LEGO palette, the single source color opaque
black. -/
theorem claim_C2_witness :
    dictLookup (generateFilterWith legoColorsList [colorDefault]).1 colorDefault =
      some (closestEntry legoColorsList colorDefault) ∧
    closestEntry legoColorsList colorDefault ∈ legoColorsList ∧
    (∀ p ∈ legoColorsList,
      diffSq { colorDefault with a := quant 1 } (closestEntry legoColorsList colorDefault) ≤
        diffSq { colorDefault with a := quant 1 } p) := by
  have h := claim_C2 legoColorsList (by simp [legoColorsList]) [colorDefault] colorDefault
    (List.mem_singleton.mpr rfl)
  exact ⟨h.1, h.2.1, h.2.2.1⟩

/-- Counterexample to claim C7: `darken` does not leave hue and
saturation unchanged. Darkening `(1, 2, 3)/255` (hue `7/12`, saturation
`1/2`) by `1/3` stores the re-quantized RGB `(1, 1, 2)/255`, whose derived
saturation is `1/3` and hue is `2/3`. -/
theorem claim_C7_counterexample :
    Color.darken ⟨1/255, 2/255, 3/255, 1⟩ (1/3) = .ok ⟨1/255, 1/255, 2/255, 1⟩ ∧
    (0 ≤ (1/3 : ℚ) ∧ (1/3 : ℚ) ≤ 1) ∧
    Color.s ⟨1/255, 2/255, 3/255, 1⟩ = 1/2 ∧
    Color.s ⟨1/255, 1/255, 2/255, 1⟩ = 1/3 ∧
    Color.s ⟨1/255, 1/255, 2/255, 1⟩ ≠ Color.s ⟨1/255, 2/255, 3/255, 1⟩ ∧
    Color.h ⟨1/255, 2/255, 3/255, 1⟩ = 7/12 ∧
    Color.h ⟨1/255, 1/255, 2/255, 1⟩ = 2/3 ∧
    Color.h ⟨1/255, 1/255, 2/255, 1⟩ ≠ Color.h ⟨1/255, 2/255, 3/255, 1⟩ := by
  have hs1 : Color.s ⟨1/255, 2/255, 3/255, 1⟩ = 1/2 := by
    norm_num [Color.s, rgb_to_hsl, max_def, min_def]
  have hs2 : Color.s ⟨1/255, 1/255, 2/255, 1⟩ = 1/3 := by
    norm_num [Color.s, rgb_to_hsl, max_def, min_def]
  have hh1 : Color.h ⟨1/255, 2/255, 3/255, 1⟩ = 7/12 := by
    norm_num [Color.h, rgb_to_hsl, max_def, min_def]
  have hh2 : Color.h ⟨1/255, 1/255, 2/255, 1⟩ = 2/3 := by
    norm_num [Color.h, rgb_to_hsl, max_def, min_def]
  refine ⟨?_, by norm_num, hs1, hs2, ?_, hh1, hh2, ?_⟩
  · norm_num [Color.darken, Color.setHsl, rgb_to_hsl, hsl_to_rgb, pmod2, max_def, min_def,
      quant, pyRound, round_eq, Int.fract, abs_of_nonneg, abs_of_nonpos]
  · rw [hs1, hs2]; norm_num
  · rw [hh1, hh2]; norm_num

/-- Claim C7 as amended: `darken(0)`/`lighten(0)` return the color
unchanged, `darken(1)` drives the derived lightness to 0 and `lighten(1)`
drives it to 1, and for every amount in `[0,1]` both operations succeed
and leave alpha unchanged — but hue and saturation are only fed unchanged
into the HSL→RGB conversion, and the 1/255 re-quantization of the
converted RGB may shift the derived hue and saturation (see the
counterexample). The operations return the updated color. -/
theorem claim_C7_amended :
    (∀ c : Color, c.Valid → c.darken 0 = .ok c ∧ c.lighten 0 = .ok c) ∧
    (∀ c : Color, c.Valid →
      (c.darken 1).map Color.l = .ok 0 ∧ (c.lighten 1).map Color.l = .ok 1) ∧
    (∀ c : Color, c.Valid → ∀ q : ℚ, 0 ≤ q → q ≤ 1 →
      (c.darken q).map Color.a = .ok c.a ∧ (c.lighten q).map Color.a = .ok c.a) := by
  refine ⟨fun c hv => ⟨darken_zero hv, lighten_zero hv⟩, fun c hv => ⟨?_, ?_⟩,
    fun c hv q hq0 hq1 => ⟨darken_alpha hv hq0 hq1, lighten_alpha hv hq0 hq1⟩⟩
  · rw [darken_one hv]
    simp only [Except.map]
    unfold Color.l
    rw [show (Color.mk 0 0 0 c.a).r = 0 from rfl, show (Color.mk 0 0 0 c.a).g = 0 from rfl,
      show (Color.mk 0 0 0 c.a).b = 0 from rfl, rgb_to_hsl_gray]
  · rw [lighten_one hv]
    simp only [Except.map]
    unfold Color.l
    rw [show (Color.mk 1 1 1 c.a).r = 1 from rfl, show (Color.mk 1 1 1 c.a).g = 1 from rfl,
      show (Color.mk 1 1 1 c.a).b = 1 from rfl, rgb_to_hsl_gray]

/-- Witness for the amended claim C7 at opaque black and amount 1/2. -/
theorem claim_C7_witness :
    colorDefault.darken 0 = .ok colorDefault ∧
    (colorDefault.darken 1).map Color.l = .ok 0 ∧
    (colorDefault.lighten 1).map Color.l = .ok 1 ∧
    (colorDefault.darken (1/2)).map Color.a = .ok colorDefault.a := by
  have hv : colorDefault.Valid := by
    refine ⟨?_, ?_, ?_, ?_⟩ <;>
      norm_num [colorDefault, IsQ255, quant, pyRound, round_eq, Int.fract]
  exact ⟨(claim_C7_amended.1 colorDefault hv).1, (claim_C7_amended.2.1 colorDefault hv).1,
    (claim_C7_amended.2.1 colorDefault hv).2,
    (claim_C7_amended.2.2 colorDefault hv (1/2) (by norm_num) (by norm_num)).1⟩

theorem generateFilterStep_snd (palette : List Color)
    (acc : List (Color × Color) × List (Color × ℕ)) (oc : Color) :
    (generateFilterStep palette acc oc).2 =
      if (dictLookup acc.2 (closestEntry palette oc)).isSome then acc.2
      else acc.2 ++ [(closestEntry palette oc, 0)] := rfl

set_option maxHeartbeats 4000000 in
theorem closestEntry_transBlack :
    closestEntry legoColorsList (Color.mk 0 0 0 0) = c255 0 0 0 := by
  norm_num [closestEntry, legoColorsList, c255, diffSq, Color.hsl, rgb_to_hsl, max_def,
    min_def, minIndex, pyMin, idxOfQ, quant, pyRound, round_eq, Int.fract, List.getD,
    List.get?]

set_option maxHeartbeats 4000000 in
theorem closestEntry_opaqueBlack :
    closestEntry legoColorsList (Color.mk 0 0 0 1) = c255 0 0 0 := by
  norm_num [closestEntry, legoColorsList, c255, diffSq, Color.hsl, rgb_to_hsl, max_def,
    min_def, minIndex, pyMin, idxOfQ, quant, pyRound, round_eq, Int.fract, List.getD,
    List.get?]

set_option maxHeartbeats 4000000 in
theorem closestEntry_nearRed :
    closestEntry legoColorsList (Color.mk (250/255) 0 0 1) = c255 255 0 0 := by
  norm_num [closestEntry, legoColorsList, c255, diffSq, Color.hsl, rgb_to_hsl, max_def,
    min_def, minIndex, pyMin, idxOfQ, quant, pyRound, round_eq, Int.fract, List.getD,
    List.get?]

/-- Counterexample to claim C8. With the program's own options
(`limit_to_lego_only=True`, margin 1/2, `keep_removed_transparent_studs`
off) and the image colors { fully-transparent black, opaque black }, the
filter maps both to the palette's black. Rendering the fully transparent
pixel (alpha 0 < margin 1/2): `generateImage` first substitutes the
matched palette color — which is opaque — so the stud is drawn non-empty
and black's usage counter is incremented from 0 to 1, although the pixel's
alpha is below the transparency margin. -/
theorem claim_C8_counterexample :
    (Color.mk 0 0 0 0).a < defaultOpts.transparent_margin ∧
    generateFilter [Color.mk 0 0 0 0, Color.mk 0 0 0 1] =
      ([(Color.mk 0 0 0 0, c255 0 0 0), (Color.mk 0 0 0 1, c255 0 0 0)],
       [(c255 0 0 0, 0)]) ∧
    renderUses defaultOpts
        [(Color.mk 0 0 0 0, c255 0 0 0), (Color.mk 0 0 0 1, c255 0 0 0)]
        [(c255 0 0 0, 0)] [Color.mk 0 0 0 0] =
      .ok ([(Color.mk 0 0 0 1, false)], [(Color.mk 0 0 0 1, 1)]) ∧
    ([(Color.mk 0 0 0 1, 1)] : List (Color × ℕ)) ≠ [(c255 0 0 0, 0)] := by
  refine ⟨by norm_num [defaultOpts], ?_, ?_, ?_⟩
  · have h1 : generateFilterStep legoColorsList ([], []) (Color.mk 0 0 0 0) =
        ([(Color.mk 0 0 0 0, c255 0 0 0)], [(c255 0 0 0, 0)]) := by
      have hf := generateFilterStep_fst legoColorsList ([], []) (Color.mk 0 0 0 0)
      have hs := generateFilterStep_snd legoColorsList ([], []) (Color.mk 0 0 0 0)
      rw [closestEntry_transBlack] at hf hs
      rw [Prod.ext_iff]
      refine ⟨?_, ?_⟩
      · rw [hf]; norm_num [dictSet, dictLookup]
      · rw [hs]; norm_num [dictLookup]
    have h2 : generateFilterStep legoColorsList
        ([(Color.mk 0 0 0 0, c255 0 0 0)], [(c255 0 0 0, 0)]) (Color.mk 0 0 0 1) =
        ([(Color.mk 0 0 0 0, c255 0 0 0), (Color.mk 0 0 0 1, c255 0 0 0)],
         [(c255 0 0 0, 0)]) := by
      have hf := generateFilterStep_fst legoColorsList
        ([(Color.mk 0 0 0 0, c255 0 0 0)], [(c255 0 0 0, 0)]) (Color.mk 0 0 0 1)
      have hs := generateFilterStep_snd legoColorsList
        ([(Color.mk 0 0 0 0, c255 0 0 0)], [(c255 0 0 0, 0)]) (Color.mk 0 0 0 1)
      rw [closestEntry_opaqueBlack] at hf hs
      rw [Prod.ext_iff]
      refine ⟨?_, ?_⟩
      · rw [hf]; norm_num [dictSet, dictLookup, c255, Color.mk.injEq]
      · rw [hs]; norm_num [dictLookup, c255, Color.mk.injEq]
    unfold generateFilter generateFilterWith
    rw [List.foldl_cons, h1, List.foldl_cons, h2, List.foldl_nil]
  · norm_num [renderUses, drawStud, defaultOpts, dictLookup, dictSet, quant, pyRound,
      round_eq, Int.fract, c255, Color.mk.injEq, List.foldlM, Except.bind, Except.pure,
      Except.map, Bind.bind, Pure.pure]
  · norm_num [c255, Color.mk.injEq]

/-- Claim C8 as amended: at the `drawStud` level the exclusion does hold —
when `keep_removed_transparent_studs` is off, a fill whose alpha is below
the transparency margin is snapped to alpha 0, the stud is empty, and the
usage counters are returned unchanged. (In the full pipeline with
`limit_to_lego_only` the rendering loop substitutes the matched opaque
palette color before calling `drawStud`, defeating this guard — see the
counterexample.) -/
theorem claim_C8_amended (opts : RenderOptions) (filt : List (Color × Color))
    (uses : List (Color × ℕ)) (fill : Color)
    (hkeep : opts.keep_removed_transparent_studs = false)
    (hfill : fill.a < opts.transparent_margin) :
    drawStud opts filt uses fill = .ok ({ fill with a := quant 0 }, true, uses) := by
  unfold drawStud
  rw [if_neg (not_le.mpr hfill), hkeep]
  simp [quant_zero]

/-- Witness for the amended claim C8: a fully transparent pixel under the
default options touches no counter. -/
theorem claim_C8_witness :
    drawStud defaultOpts [] [(c255 0 0 0, 0)] (Color.mk 0 0 0 0) =
      .ok ({ Color.mk 0 0 0 0 with a := quant 0 }, true, [(c255 0 0 0, 0)]) :=
  claim_C8_amended defaultOpts [] [(c255 0 0 0, 0)] (Color.mk 0 0 0 0) rfl
    (by norm_num [defaultOpts])

/-- Divergence witness for claim C6. The zero-seeding half of the claim
holds: `generateFilter` registers every match target with count 0. But the
counts do not equal the number of studs drawn: with the single image color
`(250,0,0)` — matched to the palette's bright red `(255,0,0)` — rendering
draws one non-empty bright-red stud, yet bright red's counter stays 0,
because `drawStud` only increments when the (already substituted) palette
color is itself a key of the filter, i.e. appears verbatim among the
source image colors. -/
theorem claim_C6_eval :
    generateFilter [Color.mk (250/255) 0 0 1] =
      ([(Color.mk (250/255) 0 0 1, c255 255 0 0)], [(c255 255 0 0, 0)]) ∧
    renderUses defaultOpts [(Color.mk (250/255) 0 0 1, c255 255 0 0)]
        [(c255 255 0 0, 0)] [Color.mk (250/255) 0 0 1] =
      .ok ([(Color.mk 1 0 0 1, false)], [(c255 255 0 0, 0)]) ∧
    Color.mk 1 0 0 1 = c255 255 0 0 ∧
    dictLookup [(c255 255 0 0, 0)] (c255 255 0 0) = some 0 := by
  refine ⟨?_, ?_, ?_, ?_⟩
  · have h1 : generateFilterStep legoColorsList ([], []) (Color.mk (250/255) 0 0 1) =
        ([(Color.mk (250/255) 0 0 1, c255 255 0 0)], [(c255 255 0 0, 0)]) := by
      have hf := generateFilterStep_fst legoColorsList ([], []) (Color.mk (250/255) 0 0 1)
      have hs := generateFilterStep_snd legoColorsList ([], []) (Color.mk (250/255) 0 0 1)
      rw [closestEntry_nearRed] at hf hs
      rw [Prod.ext_iff]
      refine ⟨?_, ?_⟩
      · rw [hf]; norm_num [dictSet, dictLookup]
      · rw [hs]; norm_num [dictLookup]
    unfold generateFilter generateFilterWith
    rw [List.foldl_cons, h1, List.foldl_nil]
  · norm_num [renderUses, drawStud, defaultOpts, dictLookup, dictSet, quant, pyRound,
      round_eq, Int.fract, c255, Color.mk.injEq, List.foldlM, Except.bind, Except.pure,
      Except.map, Bind.bind, Pure.pure]
  · norm_num [c255, Color.mk.injEq]
  · norm_num [dictLookup]

/-- Claim C9: every component setter (`r`, `g`, `b`, `h`, `s`, `l`,
`alpha`, the `rgb`/`hsl` tuple setters) and the `darken`/`lighten` amounts
fail with `OutOfRange` for a value outside `[0,1]` — the assertion fires
before any field is written, and since the embedded operation returns an
error instead of a new color, the color is unchanged — while an in-range
value is stored subject only to the 1/255 quantization (`quant`, exactly
`round(v*255)/255`), never clamped to anything else: scalar RGB/alpha
setters store `quant v` and touch nothing else; the tuple setters store
the quantized components (the `hsl` setter the quantized `hsl_to_rgb`
conversion); the single HSL-component setters on a valid color store the
quantized conversion of the current HSL with just that component
replaced, leaving alpha unchanged. -/
theorem claim_C9 :
    (∀ (c : Color) (v : ℚ), v < 0 ∨ 1 < v →
      c.setR v = .error .outOfRange ∧ c.setG v = .error .outOfRange ∧
      c.setB v = .error .outOfRange ∧ c.setAlpha v = .error .outOfRange ∧
      c.setH v = .error .outOfRange ∧ c.setS v = .error .outOfRange ∧
      c.setL v = .error .outOfRange ∧ c.darken v = .error .outOfRange ∧
      c.lighten v = .error .outOfRange) ∧
    (∀ (c : Color) (x y z : ℚ) (a? : Option ℚ),
      x < 0 ∨ 1 < x ∨ y < 0 ∨ 1 < y ∨ z < 0 ∨ 1 < z →
      c.setRgb x y z a? = .error .outOfRange ∧ c.setHsl x y z a? = .error .outOfRange) ∧
    (∀ (c : Color) (x y z a : ℚ), 0 ≤ x → x ≤ 1 → 0 ≤ y → y ≤ 1 → 0 ≤ z → z ≤ 1 →
      a < 0 ∨ 1 < a →
      c.setRgb x y z (some a) = .error .outOfRange ∧
      c.setHsl x y z (some a) = .error .outOfRange) ∧
    (∀ (c : Color) (v : ℚ), 0 ≤ v → v ≤ 1 →
      c.setR v = .ok { c with r := quant v } ∧ c.setG v = .ok { c with g := quant v } ∧
      c.setB v = .ok { c with b := quant v } ∧ c.setAlpha v = .ok { c with a := quant v }) ∧
    (∀ (c : Color) (x y z : ℚ), 0 ≤ x → x ≤ 1 → 0 ≤ y → y ≤ 1 → 0 ≤ z → z ≤ 1 →
      c.setRgb x y z none = .ok ⟨quant x, quant y, quant z, quant c.a⟩ ∧
      (∀ a : ℚ, 0 ≤ a → a ≤ 1 →
        c.setRgb x y z (some a) = .ok ⟨quant x, quant y, quant z, quant a⟩ ∧
        c.setHsl x y z (some a) = .ok ⟨quant (hsl_to_rgb x y z).1,
          quant (hsl_to_rgb x y z).2.1, quant (hsl_to_rgb x y z).2.2, quant a⟩) ∧
      c.setHsl x y z none = .ok ⟨quant (hsl_to_rgb x y z).1, quant (hsl_to_rgb x y z).2.1,
        quant (hsl_to_rgb x y z).2.2, quant c.a⟩) ∧
    (∀ c : Color, c.Valid → ∀ v : ℚ, 0 ≤ v → v ≤ 1 →
      c.setH v = .ok ⟨quant (hsl_to_rgb v (rgb_to_hsl c.r c.g c.b).2.1
          (rgb_to_hsl c.r c.g c.b).2.2).1,
        quant (hsl_to_rgb v (rgb_to_hsl c.r c.g c.b).2.1 (rgb_to_hsl c.r c.g c.b).2.2).2.1,
        quant (hsl_to_rgb v (rgb_to_hsl c.r c.g c.b).2.1 (rgb_to_hsl c.r c.g c.b).2.2).2.2,
        quant c.a⟩ ∧
      c.setS v = .ok ⟨quant (hsl_to_rgb (rgb_to_hsl c.r c.g c.b).1 v
          (rgb_to_hsl c.r c.g c.b).2.2).1,
        quant (hsl_to_rgb (rgb_to_hsl c.r c.g c.b).1 v (rgb_to_hsl c.r c.g c.b).2.2).2.1,
        quant (hsl_to_rgb (rgb_to_hsl c.r c.g c.b).1 v (rgb_to_hsl c.r c.g c.b).2.2).2.2,
        quant c.a⟩ ∧
      c.setL v = .ok ⟨quant (hsl_to_rgb (rgb_to_hsl c.r c.g c.b).1
          (rgb_to_hsl c.r c.g c.b).2.1 v).1,
        quant (hsl_to_rgb (rgb_to_hsl c.r c.g c.b).1 (rgb_to_hsl c.r c.g c.b).2.1 v).2.1,
        quant (hsl_to_rgb (rgb_to_hsl c.r c.g c.b).1 (rgb_to_hsl c.r c.g c.b).2.1 v).2.2,
        quant c.a⟩ ∧
      quant c.a = c.a) := by
  refine ⟨?_, ?_, ?_, ?_, ?_, ?_⟩
  · intro c v hv
    have hnot : ¬(0 ≤ v ∧ v ≤ 1) := by
      rintro ⟨h0, h1⟩
      rcases hv with h | h <;> linarith
    exact ⟨if_neg hnot, if_neg hnot, if_neg hnot, if_neg hnot, if_neg hnot, if_neg hnot,
      if_neg hnot, if_neg hnot, if_neg hnot⟩
  · intro c x y z a? hv
    have hnot : ¬(0 ≤ x ∧ x ≤ 1 ∧ 0 ≤ y ∧ y ≤ 1 ∧ 0 ≤ z ∧ z ≤ 1) := by
      rintro ⟨h1, h2, h3, h4, h5, h6⟩
      rcases hv with h | h | h | h | h | h <;> linarith
    exact ⟨if_neg hnot, if_neg hnot⟩
  · intro c x y z a hx0 hx1 hy0 hy1 hz0 hz1 ha
    have hnota : ¬(0 ≤ a ∧ a ≤ 1) := by
      rintro ⟨h0, h1⟩
      rcases ha with h | h <;> linarith
    constructor
    · unfold Color.setRgb
      rw [if_pos ⟨hx0, hx1, hy0, hy1, hz0, hz1⟩]
      exact if_neg hnota
    · unfold Color.setHsl
      rw [if_pos ⟨hx0, hx1, hy0, hy1, hz0, hz1⟩]
      exact if_neg hnota
  · intro c v h0 h1
    exact ⟨if_pos ⟨h0, h1⟩, if_pos ⟨h0, h1⟩, if_pos ⟨h0, h1⟩, if_pos ⟨h0, h1⟩⟩
  · intro c x y z hx0 hx1 hy0 hy1 hz0 hz1
    exact ⟨setRgb_none_inRange c hx0 hx1 hy0 hy1 hz0 hz1,
      fun a ha0 ha1 => ⟨setRgb_some_inRange c hx0 hx1 hy0 hy1 hz0 hz1 ha0 ha1,
        setHsl_some_inRange c hx0 hx1 hy0 hy1 hz0 hz1 ha0 ha1⟩,
      setHsl_none_inRange c hx0 hx1 hy0 hy1 hz0 hz1⟩
  · intro c hv v h0 h1
    obtain ⟨hr, hg, hb, ha⟩ := hv
    have hmem := rgb_to_hsl_mem hr.1 hr.2.1 hg.1 hg.2.1 hb.1 hb.2.1
    refine ⟨?_, ?_, ?_, ha.2.2⟩
    · unfold Color.setH
      rw [if_pos ⟨h0, h1⟩]
      have hconv := hsl_to_rgb_mem h0 h1 hmem.2.1.1 hmem.2.1.2 hmem.2.2.1 hmem.2.2.2
      exact setRgb_none_inRange c hconv.1.1 hconv.1.2 hconv.2.1.1 hconv.2.1.2
        hconv.2.2.1 hconv.2.2.2
    · unfold Color.setS
      rw [if_pos ⟨h0, h1⟩]
      have hconv := hsl_to_rgb_mem hmem.1.1 hmem.1.2 h0 h1 hmem.2.2.1 hmem.2.2.2
      exact setRgb_none_inRange c hconv.1.1 hconv.1.2 hconv.2.1.1 hconv.2.1.2
        hconv.2.2.1 hconv.2.2.2
    · unfold Color.setL
      rw [if_pos ⟨h0, h1⟩]
      have hconv := hsl_to_rgb_mem hmem.1.1 hmem.1.2 hmem.2.1.1 hmem.2.1.2 h0 h1
      exact setRgb_none_inRange c hconv.1.1 hconv.1.2 hconv.2.1.1 hconv.2.1.2
        hconv.2.2.1 hconv.2.2.2

/-- Witness for claim C9: an out-of-range write fails, in-range writes
store the quantization, on the valid opaque black. -/
theorem claim_C9_witness :
    colorDefault.setR 2 = .error .outOfRange ∧
    colorDefault.setAlpha (1/2) = .ok { colorDefault with a := quant (1/2) } ∧
    colorDefault.setRgb (1/2) (1/3) (1/4) none =
      .ok ⟨quant (1/2), quant (1/3), quant (1/4), quant colorDefault.a⟩ ∧
    quant colorDefault.a = colorDefault.a := by
  have hv : colorDefault.Valid := by
    refine ⟨?_, ?_, ?_, ?_⟩ <;>
      norm_num [colorDefault, IsQ255, quant, pyRound, round_eq, Int.fract]
  exact ⟨(claim_C9.1 colorDefault 2 (Or.inr (by norm_num))).1,
    (claim_C9.2.2.2.1 colorDefault (1/2) (by norm_num) (by norm_num)).2.2.2,
    (claim_C9.2.2.2.2.1 colorDefault (1/2) (1/3) (1/4) (by norm_num) (by norm_num)
      (by norm_num) (by norm_num) (by norm_num) (by norm_num)).1,
    (claim_C9.2.2.2.2.2 colorDefault hv (1/2) (by norm_num) (by norm_num)).2.2.2⟩

end LegoImage
